import Mathlib

/-!
Verification development for the TIM (Two-Stage Interpretable Matching)
package: a shallow embedding of `tim/matcher.py`, `tim/distances.py`,
`tim/weights.py` and `tim/effects.py`.

Modelling conventions:
* A dataframe cell holds `Option ℚ`; `none` models a missing value (NaN).
  Pandas comparisons against NaN are false, sums skip NaN, and arithmetic
  propagates NaN; the `Option`-valued helpers below implement exactly that.
* A `Row` carries its index label (`idx`, pandas row index) and an
  association list of column cells.  A `Frame` is a column-name list plus
  a row list.
* Machine floats are modelled by `ℚ`; the algorithms use only field
  arithmetic and order comparisons, which agree with IEEE semantics on
  the exact, small inputs our witnesses evaluate.
* The external collaborators (`cem.coarsen`, `cem.imbalance.L1`, the
  sklearn ridge-regression importance ranker) are out of scope per the
  design document; `fit` takes the coarsening function and the
  importance-sorted covariate order as parameters.
-/

/-- One dataframe row: a pandas index label plus the column cells.
A cell value of `none` models NaN; a column name absent from the
association list also reads as `none`. -/
structure Row where
  idx : Nat
  cells : List (String × Option ℚ)
deriving DecidableEq, Repr

/-- Read a cell of a row (first binding of the column name wins). -/
def Row.val (r : Row) (c : String) : Option ℚ :=
  match r.cells.find? (fun p => p.1 = c) with
  | some p => p.2
  | none => none

/-- Column assignment `df[c] = v` at row level: any previous binding for
`c` is removed and the new one appended. -/
def Row.setCell (r : Row) (c : String) (v : Option ℚ) : Row :=
  ⟨r.idx, r.cells.filter (fun p => p.1 ≠ c) ++ [(c, v)]⟩

/-- A dataframe: the column names and the rows. -/
structure Frame where
  cols : List String
  rows : List Row
deriving DecidableEq, Repr

/-- Index labels of a row list. -/
def idxsOf (l : List Row) : List Nat := l.map Row.idx

/-- NaN-respecting equality (`pandas ==`): NaN compares false to
everything, including NaN. -/
def qeq (a b : Option ℚ) : Bool :=
  match a, b with
  | some x, some y => decide (x = y)
  | _, _ => false

/-- NaN-propagating addition. -/
def oadd (a b : Option ℚ) : Option ℚ :=
  match a, b with
  | some x, some y => some (x + y)
  | _, _ => none

/-- NaN-propagating multiplication. -/
def omul (a b : Option ℚ) : Option ℚ :=
  match a, b with
  | some x, some y => some (x * y)
  | _, _ => none

/-- Pandas `Series.sum()` with the default `skipna=True`. -/
def osum (l : List (Option ℚ)) : ℚ := (l.filterMap id).sum

/-- Minimum of a nonempty rational list (`none` on the empty list, where
pandas returns NaN). -/
def omin (l : List ℚ) : Option ℚ :=
  match l with
  | [] => none
  | x :: xs => some (xs.foldl min x)

/-- Maximum of a nonempty rational list (`none` on the empty list). -/
def omax (l : List ℚ) : Option ℚ :=
  match l with
  | [] => none
  | x :: xs => some (xs.foldl max x)

/-- Auxiliary for `firstDedup`: drop elements already seen. -/
def firstDedupAux {α : Type} [DecidableEq α] (seen : List α) : List α → List α
  | [] => []
  | x :: xs =>
    if x ∈ seen then firstDedupAux seen xs
    else x :: firstDedupAux (seen ++ [x]) xs

/-- `pandas.unique` order: distinct values, first occurrence first. -/
def firstDedup {α : Type} [DecidableEq α] (l : List α) : List α :=
  firstDedupAux [] l

/-- `Series.nunique()` of a column (default `dropna=True`). -/
def nuniqueRows (rows : List Row) (c : String) : Nat :=
  (firstDedup (rows.filterMap (fun r => r.val c))).length

/-! ## `TIMatcher._validate_input` (`tim/matcher.py`) -/

/-- `TIMatcher._validate_input`: true when the call raises `ValueError`,
i.e. when some required column is absent or the treatment column does not
have exactly two distinct values. -/
def validate_input (data : Frame) (treatment_col outcome_col : String)
    (continuous_cols discrete_cols : List String) : Bool :=
  let required := [treatment_col, outcome_col] ++ continuous_cols ++ discrete_cols
  required.any (fun c => decide (c ∉ data.cols)) ||
    decide (nuniqueRows data.rows treatment_col ≠ 2)

/-! ## `TIMatcher._exact_matching_with_importance` (`tim/matcher.py`) -/

/-- The grouping key of a row under `df.groupby(keys)`. -/
def keyOf (keys : List String) (r : Row) : List (Option ℚ) :=
  keys.map (fun c => r.val c)

/-- `df.groupby(keys)`: rows with NaN in any key column are dropped
(pandas default `dropna=True`); the remaining rows are partitioned by
exact key equality.  Pandas emits groups sorted by key, we emit them in
first-appearance order; no downstream result inspected here depends on
the group order. -/
def groupbyRows (rows : List Row) (keys : List String) :
    List (List (Option ℚ) × List Row) :=
  let rows0 := rows.filter (fun r => (keyOf keys r).all Option.isSome)
  (firstDedup (rows0.map (keyOf keys))).map
    (fun k => (k, rows0.filter (fun r => decide (keyOf keys r = k))))

/-- The inner loop over the groups of one subset size: each group whose
treatment column shows all treatment levels is accepted as a stratum and
its index labels are dropped from the remaining pool
(`remaining_df.drop(index=indices)`). -/
def processGroups (treatment_col : String) (treatment_levels : Nat)
    (current : List String) :
    List (List (Option ℚ) × List Row) → List Row →
    List (List String × List Row) × List Row
  | [], remaining => ([], remaining)
  | g :: gs, remaining =>
    if nuniqueRows g.2 treatment_col = treatment_levels then
      let rest := processGroups treatment_col treatment_levels current gs
        (remaining.filter (fun r => decide (r.idx ∉ idxsOf g.2)))
      ((current, g.2) :: rest.1, rest.2)
    else
      processGroups treatment_col treatment_levels current gs remaining

/-- The `for subset_size in range(len(sorted_covariates), 0, -1)` loop:
`fuel` is the current subset size.  After each size, the loop stops early
when no treated unit (`treatment == 1`) remains in the pool. -/
def matchLoop (sorted_covariates : List String) (treatment_col : String)
    (treatment_levels : Nat) :
    Nat → List Row → List (List String × List Row) × List Row
  | 0, remaining => ([], remaining)
  | subset_size + 1, remaining =>
    let current := sorted_covariates.take (subset_size + 1)
    let step := processGroups treatment_col treatment_levels current
      (groupbyRows remaining current) remaining
    if (step.2.filter (fun r => qeq (r.val treatment_col) (some 1))).isEmpty then
      step
    else
      let rest := matchLoop sorted_covariates treatment_col treatment_levels
        subset_size step.2
      (step.1 ++ rest.1, rest.2)

/-- `TIMatcher._exact_matching_with_importance`.  The covariates are
taken already sorted by importance, descending (the sorting key comes
from the external sklearn-based ranker).  Returns, as in the source:
the strata list, the remaining treated units, the remaining pool
(`remaining_df`), and the concatenation of all matched units. -/
def exact_matching_with_importance (df : Frame) (treatment_col : String)
    (sorted_covariates : List String) :
    List (List String × Frame) × List Row × List Row × List Row :=
  let treatment_levels := nuniqueRows df.rows treatment_col
  let res := matchLoop sorted_covariates treatment_col treatment_levels
    sorted_covariates.length df.rows
  let strata := res.1.map (fun s => (s.1, Frame.mk df.cols s.2))
  let matched_df_final := (res.1.map (fun s => s.2)).flatten
  let remaining_treated :=
    res.2.filter (fun r => qeq (r.val treatment_col) (some 1))
  (strata, remaining_treated, res.2, matched_df_final)

/-! ## `tim/distances.py` -/

/-- One row of the precomputed pairwise-distance table built by
`algo_distance_crosstab` (columns `Column_Name`, `Attribute_1`,
`Attribute_2`, `Total_Distance`). -/
structure DistRow where
  column_name : String
  attribute_1 : Option ℚ
  attribute_2 : Option ℚ
  total_distance : ℚ
deriving DecidableEq, Repr

/-- The per-pair lookup inside `unified_distance`: the table is filtered
by the unordered attribute pair only (the `Column_Name` field is never
consulted), and the first matching row's `Total_Distance` is taken
(`row["Total_Distance"].values[0]`), defaulting to `0` when no row
matches. -/
def lookupDist (table : List DistRow) (a b : Option ℚ) : ℚ :=
  match table.find? (fun row =>
      (qeq row.attribute_1 a && qeq row.attribute_2 b) ||
      (qeq row.attribute_1 b && qeq row.attribute_2 a)) with
  | some row => row.total_distance
  | none => 0

/-- `find_max_crosstab(col1, col2, attribute1, attribute2)`: for every
observed value `i` of `col2`, take the larger of the two conditional
frequencies `P(col2 = i | col1 = attribute_k)`, sum over `i`, subtract 1.
`pd.crosstab` drops pairs with a NaN entry.  (When an attribute has no
non-NaN pair the source raises `KeyError` through `.loc`; here the
frequency ratio is the total function `ℚ` division, yielding 0 — no
claim exercises that case.) -/
def find_max_crosstab (col1 col2 : List (Option ℚ)) (a1 a2 : ℚ) : ℚ :=
  let pairs := (col1.zip col2).filterMap (fun p =>
    match p.1, p.2 with
    | some u, some v => some (u, v)
    | _, _ => none)
  let rowTotal := fun (a : ℚ) => ((pairs.filter (fun p => decide (p.1 = a))).length : ℚ)
  let cnt := fun (a i : ℚ) =>
    ((pairs.filter (fun p => decide (p.1 = a ∧ p.2 = i))).length : ℚ)
  let c2vals := firstDedup (pairs.map (fun p => p.2))
  (c2vals.map (fun i =>
    let prob1 := cnt a1 i / rowTotal a1
    let prob2 := cnt a2 i / rowTotal a2
    if prob2 ≤ prob1 then prob1 else prob2)).sum - 1

/-- Column values of a frame column, in row order. -/
def colVals (df : Frame) (c : String) : List (Option ℚ) :=
  df.rows.map (fun r => r.val c)

/-- All 2-element combinations of a list, in `itertools.combinations`
order. -/
def pairsComb {α : Type} : List α → List (α × α)
  | [] => []
  | x :: xs => xs.map (fun y => (x, y)) ++ pairsComb xs

/-- `algo_distance_crosstab`: for every discrete covariate and every
unordered pair of its observed non-NaN category values, average the
`find_max_crosstab` distance over all other discrete covariates
(`0` when only one discrete covariate exists).  NaN categories in
`unique()` would raise downstream in the source; they are skipped here
and no claim exercises them. -/
def algo_distance_crosstab (df : Frame) (disc_columns : List String)
    (treatment_col outcome_col : String) : List DistRow :=
  -- the source drops `treatment_col`/`outcome_col` first; the remaining
  -- computation only ever reads the `disc_columns` columns
  let _ := treatment_col
  let _ := outcome_col
  (disc_columns.map (fun i =>
    (pairsComb ((firstDedup (colVals df i)).filterMap id)).map
      (fun comb =>
        let total := ((disc_columns.filter (fun j => decide (j ≠ i))).map
          (fun j => find_max_crosstab (colVals df i) (colVals df j)
            comb.1 comb.2)).sum
        let total_dist :=
          if 1 < disc_columns.length then
            total / ((disc_columns.length : ℚ) - 1)
          else 0
        DistRow.mk i (some comb.1) (some comb.2) total_dist))).flatten

/-- `matched_df.drop(cov, axis=1)` at column-list level. -/
def droppedCols (mdfCols cov : List String) : List String :=
  mdfCols.filter (fun c => decide (c ∉ cov))

/-- `set(matched.columns).intersection(set(continuous_cols))`; the set
iteration order is immaterial to every value computed downstream, so we
keep `continuous_cols` order. -/
def commonValues (continuous_cols matchedCols : List String) : List String :=
  continuous_cols.filter (fun c => decide (c ∈ matchedCols))

/-- Columns of `df_merged = pd.merge(matched, data[common_values],
left_index=True, right_index=True, suffixes=('', '_continuous'))`:
every right column collides with a left one and is suffixed. -/
def mergedColumns (mdfCols cov continuous_cols : List String) : List String :=
  droppedCols mdfCols cov ++
    (commonValues continuous_cols (droppedCols mdfCols cov)).map
      (fun c => c ++ "_continuous")

/-- The scoring gate
`any(column in matched_list for column in df_merged.columns)`. -/
def scoreGate (matched_list mergedC : List String) : Bool :=
  mergedC.any (fun c => decide (c ∈ matched_list))

/-- The row of `data` carrying a given index label (`data` is assumed to
have unique index labels, the pandas default). -/
def dataRowFor (data : Frame) (i : Nat) : Option Row :=
  data.rows.find? (fun d => d.idx = i)

/-- A cell of `df_merged`: columns surviving `drop(cov)` read from the
stratum row, suffixed `*_continuous` columns read from the original
(uncoarsened) `data` at the same index label. -/
def mval (data : Frame) (mdfCols cov continuous_cols : List String)
    (r : Row) (c : String) : Option ℚ :=
  let matchedCols := droppedCols mdfCols cov
  if c ∈ matchedCols then r.val c
  else
    match (commonValues continuous_cols matchedCols).find?
        (fun b => b ++ "_continuous" = c) with
    | some b => (dataRowFor data r.idx).bind (fun d => d.val b)
    | none => none

/-- Substring test (`'continuous' in i` on Python strings). -/
def containsSub (s pat : String) : Bool :=
  (List.range (s.toList.length + 1)).any
    (fun i => pat.toList.isPrefixOf (s.toList.drop i))

/-- `continuous_list`: merged columns whose name contains the substring
`"continuous"`. -/
def continuousListOf (mergedC : List String) : List String :=
  mergedC.filter (fun c => containsSub c "continuous")

/-- `discrete_list`: merged columns without the substring
`"continuous"`, minus the outcome and treatment columns, minus any name
occurring as a substring of some `continuous_list` name. -/
def discreteListOf (mergedC : List String) (treatment outcome : String) :
    List String :=
  (((mergedC.filter (fun c => ¬ containsSub c "continuous")).erase
      outcome).erase treatment).filter
    (fun item => ¬ (continuousListOf mergedC).any (fun w => containsSub w item))

/-- The rows of `df_merged`: stratum rows whose index label exists in
`data` (inner join on the index; `data` labels assumed unique). -/
def mergedRowsOf (data : Frame) (mdf : Frame) : List Row :=
  mdf.rows.filter (fun r => (dataRowFor data r.idx).isSome)

/-- `np.min(np.abs(val - training_1))`, NaN-propagating; `none` also
stands for the `np.min` of an empty array (the source would raise there;
matcher-produced strata always contain a treated unit). -/
def nnAbsMin (v : Option ℚ) (training1 : List (Option ℚ)) : Option ℚ :=
  match v with
  | none => none
  | some x =>
    let ds := training1.map (fun w => w.map (fun u => |x - u|))
    if ds.any (fun d => d.isNone) then none
    else
      match ds.filterMap id with
      | [] => none
      | y :: ys => some (ys.foldl min y)

/-- `df_merged[i].iloc[0]`: the value of column `i` at the FIRST row of
the (merged) stratum frame — whichever unit that is. -/
def firstRowVal (data : Frame) (mdfCols cov continuous_cols : List String)
    (rows : List Row) (i : String) : Option ℚ :=
  match rows with
  | [] => none
  | r0 :: _ => mval data mdfCols cov continuous_cols r0 i

/-- `df[c] = ...` at column-list level: appends the column name when new. -/
def addCol (cols : List String) (c : String) : List String :=
  if c ∈ cols then cols else cols ++ [c]

/-- The rows of the treated side of `df_merged`
(`df_merged[df_merged[treatment] == 1]`). -/
def treatedRowsOf (treatment : String) (data : Frame)
    (mdfCols cov continuous_cols : List String) (mergedRows : List Row) :
    List Row :=
  mergedRows.filter (fun r =>
    qeq (mval data mdfCols cov continuous_cols r treatment) (some 1))

/-- The rows of the control side of `df_merged`
(`df_merged[df_merged[treatment] == 0]`). -/
def controlRowsOf (treatment : String) (data : Frame)
    (mdfCols cov continuous_cols : List String) (mergedRows : List Row) :
    List Row :=
  mergedRows.filter (fun r =>
    qeq (mval data mdfCols cov continuous_cols r treatment) (some 0))

/-- The `continuous_distance` cell for one row of a scored stratum: the
columnwise accumulation `total_dist = [sum(i) for i in zip(total_dist,
distances)]` over the continuous columns, aligned with the control rows
in frame order, read back at the row's index label (NaN off the control
side). -/
def contValOfD (treatment : String) (data : Frame)
    (mdfCols cov continuous_cols : List String) (mergedRows : List Row)
    (m : Row) : Option ℚ :=
  let mv := fun (r : Row) (c : String) => mval data mdfCols cov continuous_cols r c
  let continuous_list := continuousListOf (mergedColumns mdfCols cov continuous_cols)
  let treatedRows := treatedRowsOf treatment data mdfCols cov continuous_cols mergedRows
  let controlRows := controlRowsOf treatment data mdfCols cov continuous_cols mergedRows
  let contTotals : List (Option ℚ) := continuous_list.foldl
    (fun acc i =>
      let training1 := treatedRows.map (fun r => mv r i)
      List.zipWith oadd acc (controlRows.map (fun r => nnAbsMin (mv r i) training1)))
    (List.replicate controlRows.length (some 0))
  ((controlRows.zip contTotals).find? (fun p => p.1.idx = m.idx)).bind
    (fun p => p.2)

/-- The `discrete_distance` cell for one row of a scored stratum: the
columnwise accumulation over the discrete list of the pairwise-table
lookup against the FIRST row's category, aligned with the control rows,
read back at the row's index label; all-NaN when the discrete list is
empty (the assignment is skipped in the source). -/
def discValOfD (treatment outcome : String) (disc_distance : List DistRow)
    (data : Frame) (mdfCols cov continuous_cols : List String)
    (mergedRows : List Row) (m : Row) : Option ℚ :=
  let mv := fun (r : Row) (c : String) => mval data mdfCols cov continuous_cols r c
  let discrete_list := discreteListOf (mergedColumns mdfCols cov continuous_cols)
    treatment outcome
  let controlRows := controlRowsOf treatment data mdfCols cov continuous_cols mergedRows
  let discTotals : List ℚ := discrete_list.foldl
    (fun acc i =>
      List.zipWith (· + ·) acc
        (controlRows.map (fun r => lookupDist disc_distance
          (firstRowVal data mdfCols cov continuous_cols mergedRows i)
          (mv r i))))
    (List.replicate controlRows.length (0 : ℚ))
  if discrete_list.isEmpty then none
  else ((controlRows.zip discTotals).find? (fun p => p.1.idx = m.idx)).map
    (fun p => p.2)

/-- The `grand_total` cell:
`continuous_distance.fillna(0) + discrete_distance.fillna(0)`, then NaN
on the treated side. -/
def gtValOfD (treatment outcome : String) (disc_distance : List DistRow)
    (data : Frame) (mdfCols cov continuous_cols : List String)
    (mergedRows : List Row) (m : Row) : Option ℚ :=
  if qeq (mval data mdfCols cov continuous_cols m treatment) (some 1) then none
  else some
    ((contValOfD treatment data mdfCols cov continuous_cols mergedRows m).getD 0 +
     (discValOfD treatment outcome disc_distance data mdfCols cov continuous_cols
        mergedRows m).getD 0)

/-- The control-side grand totals feeding the min/max normalisation
(`df_merged[df_merged[treatment] == 0]['grand_total']`, skipna). -/
def ctrlGtsOf (treatment outcome : String) (disc_distance : List DistRow)
    (data : Frame) (mdfCols cov continuous_cols : List String)
    (mergedRows : List Row) : List ℚ :=
  (controlRowsOf treatment data mdfCols cov continuous_cols mergedRows).filterMap
    (gtValOfD treatment outcome disc_distance data mdfCols cov continuous_cols
      mergedRows)

/-- The `inverse_distance` cell: the inverse min-max normalisation when
`max > min`, the constant 1 otherwise, then the NaN-to-1 fix for
controls and the `inverse_weight` constant for treated rows. -/
def invValOfD (treatment outcome : String) (disc_distance : List DistRow)
    (matched_list : List String) (data : Frame)
    (mdfCols cov continuous_cols : List String) (mergedRows : List Row)
    (m : Row) : Option ℚ :=
  let inverse_weight : ℚ :=
    1 - (((discreteListOf (mergedColumns mdfCols cov continuous_cols)
        treatment outcome).length : ℚ) +
      ((continuousListOf (mergedColumns mdfCols cov continuous_cols)).length : ℚ)) /
      (matched_list.length : ℚ)
  if qeq (mval data mdfCols cov continuous_cols m treatment) (some 1) then
    some inverse_weight
  else
    let gts := ctrlGtsOf treatment outcome disc_distance data mdfCols cov
      continuous_cols mergedRows
    let base := match omin gts, omax gts with
      | some mn, some mx =>
        if mn < mx then
          (gtValOfD treatment outcome disc_distance data mdfCols cov
            continuous_cols mergedRows m).map (fun g => 1 - (g - mn) / (mx - mn))
        else some 1
      | _, _ => some 1
    if qeq (mval data mdfCols cov continuous_cols m treatment) (some 0) &&
        base.isNone then some 1
    else base

/-- The body of `unified_distance` for one stratum `(covariates,
matched_df)`.  When the scoring gate is false the stratum is returned
untouched; otherwise the four derived columns are appended.

The source accumulates the continuous and the discrete distances
columnwise, as lists aligned with the control rows in frame order
(`total_dist = [sum(i) for i in zip(total_dist, distances)]`); the
`foldl`/`zipWith` below is that accumulation verbatim, and the final
`.loc[...] = total_dist` assignment is realised by pairing the control
rows with the accumulated list.  `df_merged[i].iloc[0]` — the category
used as the treated-side attribute of every pairwise lookup — is the
value of the stratum frame's FIRST row, whichever unit that is. -/
def scoreStratum (treatment outcome : String) (continuous_cols : List String)
    (disc_distance : List DistRow) (matched_list : List String)
    (data : Frame) (s : List String × Frame) : List String × Frame :=
  let cov := s.1
  let mdf := s.2
  let mergedC := mergedColumns mdf.cols cov continuous_cols
  if scoreGate matched_list mergedC then
    let mergedRows := mergedRowsOf data mdf
    let updRow : Row → Row := fun r =>
      let m := mergedRows.find? (fun m => m.idx = r.idx)
      ((((r.setCell "discrete_distance" (m.bind (discValOfD treatment outcome
            disc_distance data mdf.cols cov continuous_cols mergedRows))).setCell
          "continuous_distance" (m.bind (contValOfD treatment data mdf.cols cov
            continuous_cols mergedRows))).setCell
          "grand_total" (m.bind (gtValOfD treatment outcome disc_distance data
            mdf.cols cov continuous_cols mergedRows))).setCell
          "inverse_distance" (m.bind (invValOfD treatment outcome disc_distance
            matched_list data mdf.cols cov continuous_cols mergedRows)))
    let newCols := addCol (addCol (addCol (addCol mdf.cols
      "discrete_distance") "continuous_distance") "grand_total")
      "inverse_distance"
    (cov, ⟨newCols, mdf.rows.map updRow⟩)
  else s

/-- `unified_distance` (`tim/distances.py`): mutates every stratum in
place; modelled as a map over the strata. -/
def unified_distance (matched_dfs : List (List String × Frame))
    (treatment outcome : String) (continuous_cols : List String)
    (disc_distance : List DistRow) (matched_list : List String)
    (data : Frame) : List (List String × Frame) :=
  matched_dfs.map
    (scoreStratum treatment outcome continuous_cols disc_distance matched_list data)

/-! ## `tim/weights.py` -/

/-- The `weights` column written into one stratum's frame by the loop
body of `calculate_weights_from_best_matches_inverse_append`
(`match_df["weights"] = nan` followed by the treated and the guarded
control assignments). -/
def weights_frame (treatment_col : String) (M_treated M_control : ℕ)
    (s : List String × Frame) : List String × Frame :=
  let F := s.2
  let treated_units := F.rows.filter (fun r => qeq (r.val treatment_col) (some 1))
  let control_units := F.rows.filter (fun r => qeq (r.val treatment_col) (some 0))
  let n_stratum_treated := treated_units.length
  let n_stratum_control := control_units.length
  let hasInv := decide ("inverse_distance" ∈ F.cols)
  let treatedVal := fun (r : Row) =>
    if hasInv then omul (some 1) (r.val "inverse_distance") else some 1
  let guard := decide (0 < n_stratum_treated) && decide (0 < n_stratum_control)
  let weight_control : ℚ :=
    ((M_control : ℚ) / (M_treated : ℚ)) *
      ((n_stratum_treated : ℚ) / (n_stratum_control : ℚ))
  let controlVal := fun (r : Row) =>
    if hasInv then omul (some weight_control) (r.val "inverse_distance")
    else some weight_control
  let newRows := F.rows.map (fun r =>
    if qeq (r.val treatment_col) (some 1) then r.setCell "weights" (treatedVal r)
    else if qeq (r.val treatment_col) (some 0) && guard then
      r.setCell "weights" (controlVal r)
    else r.setCell "weights" none)
  (s.1, Frame.mk (addCol F.cols "weights") newRows)

/-- The weight series appended for one stratum by the loop body of
`calculate_weights_from_best_matches_inverse_append`: always the treated
series, plus the control series when the stratum has both treated and
control units. -/
def stratum_weight_series (treatment_col : String) (M_treated M_control : ℕ)
    (s : List String × Frame) : List (List (Nat × Option ℚ)) :=
  let F := s.2
  let treated_units := F.rows.filter (fun r => qeq (r.val treatment_col) (some 1))
  let control_units := F.rows.filter (fun r => qeq (r.val treatment_col) (some 0))
  let n_stratum_treated := treated_units.length
  let n_stratum_control := control_units.length
  let hasInv := decide ("inverse_distance" ∈ F.cols)
  let treatedVal := fun (r : Row) =>
    if hasInv then omul (some 1) (r.val "inverse_distance") else some 1
  let guard := decide (0 < n_stratum_treated) && decide (0 < n_stratum_control)
  let weight_control : ℚ :=
    ((M_control : ℚ) / (M_treated : ℚ)) *
      ((n_stratum_treated : ℚ) / (n_stratum_control : ℚ))
  let controlVal := fun (r : Row) =>
    if hasInv then omul (some weight_control) (r.val "inverse_distance")
    else some weight_control
  [treated_units.map (fun r => (r.idx, treatedVal r))] ++
    (if guard then [control_units.map (fun r => (r.idx, controlVal r))] else [])

/-- One iteration of the stratum loop in
`calculate_weights_from_best_matches_inverse_append`. -/
def weights_step (treatment_col : String) (M_treated M_control : ℕ)
    (acc : List (List String × Frame) × List (List (Nat × Option ℚ)))
    (s : List String × Frame) :
    List (List String × Frame) × List (List (Nat × Option ℚ)) :=
  (acc.1 ++ [weights_frame treatment_col M_treated M_control s],
   acc.2 ++ stratum_weight_series treatment_col M_treated M_control s)

/-- `calculate_weights_from_best_matches_inverse_append`.  Returns the
strata with the `weights` column written plus the concatenated weight
series (index label, weight).  The final `pd.concat(weight_series_list)`
raises `ValueError` when the list is empty — i.e. exactly when
`best_matches` is empty, since every stratum appends its treated series —
modelled by returning `none`. -/
def calculate_weights_from_best_matches_inverse_append
    (best_matches : List (List String × Frame)) (treatment_col : String) :
    Option (List (List String × Frame) × List (Nat × Option ℚ)) :=
  let M_treated := (best_matches.map (fun s =>
    (s.2.rows.filter (fun r => qeq (r.val treatment_col) (some 1))).length)).sum
  let M_control := (best_matches.map (fun s =>
    (s.2.rows.filter (fun r => qeq (r.val treatment_col) (some 0))).length)).sum
  let step := best_matches.foldl
    (weights_step treatment_col M_treated M_control) ([], [])
  if step.2.isEmpty then none else some (step.1, step.2.flatten)

/-! ## `tim/effects.py` -/

/-- One iteration of the stratum loop in `calculate_ate_att`: qualifying
strata (all three columns present) append their replicated per-stratum
ATE and their single ATT value. -/
def ate_att_step (treatment outcome weight : String) (acc : List ℚ × List ℚ)
    (s : List String × Frame) : List ℚ × List ℚ :=
  let F := s.2
  if decide (treatment ∈ F.cols) && decide (outcome ∈ F.cols) &&
      decide (weight ∈ F.cols) then
    let treated := F.rows.filter (fun r => qeq (r.val treatment) (some 1))
    let control := F.rows.filter (fun r => qeq (r.val treatment) (some 0))
    let n_treat : ℕ := treated.length
    let n_control : ℕ := control.length
    let treated_effect :=
      osum (treated.map (fun r => r.val outcome)) / (n_treat : ℚ)
    let control_effect :=
      if decide ("inverse_distance" ∈ F.cols) then
        osum (control.map (fun r => omul (r.val outcome) (r.val "inverse_distance"))) /
          osum (control.map (fun r => r.val "inverse_distance"))
      else osum (control.map (fun r => r.val outcome)) / (n_control : ℚ)
    let ate := treated_effect - control_effect
    let att :=
      osum (treated.map (fun r => omul (r.val outcome) (r.val weight))) /
        osum (treated.map (fun r => r.val weight)) -
      osum (control.map (fun r => omul (r.val outcome) (r.val weight))) /
        osum (control.map (fun r => r.val weight))
    (acc.1 ++ List.replicate n_treat ate, acc.2 ++ [att])
  else acc

/-- `calculate_ate_att`: the pair (final ATE, final ATT), `none` for an
empty accumulation list. -/
def calculate_ate_att (matched_dfs : List (List String × Frame))
    (treatment outcome weight : String) : Option ℚ × Option ℚ :=
  let step := matched_dfs.foldl (ate_att_step treatment outcome weight) ([], [])
  (if step.1.isEmpty then none else some (step.1.sum / (step.1.length : ℚ)),
   if step.2.isEmpty then none else some (step.2.sum / (step.2.length : ℚ)))

/-- Modelled from the spec (§4.5): the final ATE is the arithmetic mean
of the list holding, for each qualifying stratum, its per-stratum ATE
(treated mean outcome minus the inverse-distance-weighted — else plain —
control mean outcome) replicated once per treated unit; `none` when the
list is empty. -/
def ateSpec (matched_dfs : List (List String × Frame))
    (treatment outcome weight : String) : Option ℚ :=
  let qualifying := matched_dfs.filter (fun s =>
    decide (treatment ∈ s.2.cols) && decide (outcome ∈ s.2.cols) &&
      decide (weight ∈ s.2.cols))
  let contributions := (qualifying.map (fun s =>
    let treated := s.2.rows.filter (fun r => qeq (r.val treatment) (some 1))
    let control := s.2.rows.filter (fun r => qeq (r.val treatment) (some 0))
    let treated_effect :=
      osum (treated.map (fun r => r.val outcome)) / (treated.length : ℚ)
    let control_effect :=
      if decide ("inverse_distance" ∈ s.2.cols) then
        osum (control.map (fun r => omul (r.val outcome) (r.val "inverse_distance"))) /
          osum (control.map (fun r => r.val "inverse_distance"))
      else osum (control.map (fun r => r.val outcome)) / (control.length : ℚ)
    List.replicate treated.length (treated_effect - control_effect))).flatten
  if contributions.isEmpty then none
  else some (contributions.sum / (contributions.length : ℚ))

/-! ## `TIMatcher.fit` (`tim/matcher.py`) -/

/-- The two ways `fit` can raise inside the modelled pipeline: the
upfront validation `ValueError`, and the `ValueError` thrown by
`pd.concat` on an empty weight-series list. -/
inductive FitError where
  | validationError : FitError
  | emptyConcat : FitError
deriving DecidableEq, Repr

/-- The results `fit` stores on the matcher object. -/
structure FitResult where
  matched_strata : List (List String × Frame)
  matched_data : List Row
  weights : List (Nat × Option ℚ)
  ate : Option ℚ
  att : Option ℚ
  treatment_retention : ℚ
deriving DecidableEq, Repr

/-- `TIMatcher.fit`.  External collaborators are parameters: `coarsenFn`
models `cem.coarsen` and `importanceOrder` the covariate ranking
produced by the sklearn-based `confounder_importance_conti`, already
sorted descending.  The two `cem.imbalance.L1` overlap calls neither
raise for valid frames nor influence any later value, and are omitted.
The treatment-retention division is total here (`ℚ`); the source divides
the same counts. -/
def fit (data : Frame) (treatment_col outcome_col : String)
    (continuous_cols discrete_cols : List String)
    (importanceOrder : List String) (coarsenFn : Frame → Frame) :
    Except FitError FitResult :=
  if validate_input data treatment_col outcome_col continuous_cols discrete_cols then
    Except.error FitError.validationError
  else
    let X_coarse := coarsenFn data
    let all_covariates := continuous_cols ++ discrete_cols
    let matched := exact_matching_with_importance X_coarse treatment_col importanceOrder
    let matched_strata := matched.1
    let matched_df := matched.2.2.2
    let strata2 :=
      if discrete_cols.isEmpty then matched_strata
      else
        let disc_dist := algo_distance_crosstab X_coarse discrete_cols
          treatment_col outcome_col
        unified_distance matched_strata treatment_col outcome_col
          continuous_cols disc_dist all_covariates data
    match calculate_weights_from_best_matches_inverse_append strata2 treatment_col with
    | none => Except.error FitError.emptyConcat
    | some wres =>
      let effects := calculate_ate_att wres.1 treatment_col outcome_col "weights"
      let retention : ℚ :=
        ((matched_df.filter (fun r => qeq (r.val treatment_col) (some 1))).length : ℚ) /
          ((data.rows.filter (fun r => qeq (r.val treatment_col) (some 1))).length : ℚ)
      Except.ok
        { matched_strata := wres.1
          matched_data := matched_df
          weights := wres.2
          ate := effects.1
          att := effects.2
          treatment_retention := retention }

deriving instance DecidableEq for Except

/-- Cell access on a frame by index label (`df.loc[i, c]`; assumes the
frame's labels are unique, the pandas default). -/
def frameVal (F : Frame) (i : Nat) (c : String) : Option ℚ :=
  match F.rows.find? (fun r => r.idx = i) with
  | some r => r.val c
  | none => none

/-- Value of a weight series at an index label (first entry wins, as in
a pandas series lookup with unique labels): `none` when the label is
absent from the series. -/
def seriesVal (w : List (Nat × Option ℚ)) (i : Nat) : Option (Option ℚ) :=
  (w.find? (fun p => p.1 = i)).map Prod.snd

/-! ## General helper lemmas -/

theorem nodup_map_mem_inj {α β : Type} {f : α → β} {l : List α}
    (h : (l.map f).Nodup) {a b : α} (ha : a ∈ l) (hb : b ∈ l)
    (hf : f a = f b) : a = b := by
  induction l with
  | nil => cases ha
  | cons x xs ih =>
    simp only [List.map_cons, List.nodup_cons] at h
    rcases List.mem_cons.mp ha with rfl | ha' <;>
      rcases List.mem_cons.mp hb with rfl | hb'
    · rfl
    · exact absurd (by rw [hf]; exact List.mem_map_of_mem f hb') h.1
    · exact absurd (by rw [← hf]; exact List.mem_map_of_mem f ha') h.1
    · exact ih h.2 ha' hb'

theorem mem_firstDedupAux {α : Type} [DecidableEq α] {a : α} :
    ∀ (l seen : List α), a ∈ firstDedupAux seen l ↔ a ∈ l ∧ a ∉ seen := by
  intro l
  induction l with
  | nil => intro seen; simp [firstDedupAux]
  | cons x xs ih =>
    intro seen
    simp only [firstDedupAux]
    split
    · rename_i hx
      rw [ih]
      constructor
      · rintro ⟨h1, h2⟩; exact ⟨List.mem_cons_of_mem _ h1, h2⟩
      · rintro ⟨h1, h2⟩
        rcases List.mem_cons.mp h1 with rfl | h1'
        · exact absurd hx h2
        · exact ⟨h1', h2⟩
    · rename_i hx
      rw [List.mem_cons, ih]
      constructor
      · rintro (rfl | ⟨h1, h2⟩)
        · exact ⟨List.mem_cons_self _ _, hx⟩
        · exact ⟨List.mem_cons_of_mem _ h1,
            fun hs => h2 (List.mem_append.mpr (Or.inl hs))⟩
      · rintro ⟨h1, h2⟩
        rcases List.mem_cons.mp h1 with rfl | h1'
        · exact Or.inl rfl
        · by_cases hax : a = x
          · exact Or.inl hax
          · refine Or.inr ⟨h1', fun hs => ?_⟩
            rcases List.mem_append.mp hs with hs | hs
            · exact h2 hs
            · exact hax (List.mem_singleton.mp hs)

theorem nodup_firstDedupAux {α : Type} [DecidableEq α] :
    ∀ (l seen : List α), (firstDedupAux seen l).Nodup := by
  intro l
  induction l with
  | nil => intro seen; simp [firstDedupAux]
  | cons x xs ih =>
    intro seen
    simp only [firstDedupAux]
    split
    · exact ih _
    · refine List.nodup_cons.mpr ⟨fun hx => ?_, ih _⟩
      exact ((mem_firstDedupAux _ _).mp hx).2 (by simp)

theorem mem_firstDedup {α : Type} [DecidableEq α] {a : α} {l : List α} :
    a ∈ firstDedup l ↔ a ∈ l := by
  unfold firstDedup
  rw [mem_firstDedupAux]
  simp

theorem nodup_firstDedup {α : Type} [DecidableEq α] (l : List α) :
    (firstDedup l).Nodup := nodup_firstDedupAux l []

theorem find?_filter_of_imp {α : Type} {p q : α → Bool} (l : List α)
    (h : ∀ a, p a = true → q a = true) :
    (l.filter q).find? p = l.find? p := by
  induction l with
  | nil => rfl
  | cons x xs ih =>
    by_cases hq : q x = true
    · rw [List.filter_cons_of_pos hq]
      by_cases hp : p x = true
      · rw [List.find?_cons_of_pos _ hp, List.find?_cons_of_pos _ hp]
      · rw [List.find?_cons_of_neg _ hp, List.find?_cons_of_neg _ hp, ih]
    · have hp : ¬ p x = true := fun hp => hq (h x hp)
      rw [List.filter_cons_of_neg hq, ih, List.find?_cons_of_neg _ hp]

theorem Row.idx_setCell (r : Row) (c : String) (v : Option ℚ) :
    (r.setCell c v).idx = r.idx := rfl

theorem Row.val_setCell_same (r : Row) (c : String) (v : Option ℚ) :
    (r.setCell c v).val c = v := by
  unfold Row.setCell Row.val
  rw [List.find?_append]
  have h1 : (r.cells.filter (fun p => decide (p.1 ≠ c))).find?
      (fun p => decide (p.1 = c)) = none := by
    rw [List.find?_eq_none]
    intro p hp
    have h2 := (List.mem_filter.mp hp).2
    simp only [decide_not, Bool.not_eq_true', decide_eq_false_iff_not] at h2
    simp [h2]
  rw [h1]
  simp [List.find?]

theorem Row.val_setCell_other (r : Row) {c c' : String} (v : Option ℚ)
    (h : c' ≠ c) : (r.setCell c v).val c' = r.val c' := by
  unfold Row.setCell Row.val
  rw [List.find?_append]
  have h2 : List.find? (fun p => decide (p.1 = c')) [(c, v)] = none := by
    rw [List.find?_eq_none]
    intro p hp
    rw [List.mem_singleton] at hp
    subst hp
    simp only [decide_eq_true_eq]
    exact fun hh => h hh.symm
  have h3 : (r.cells.filter (fun p => decide (p.1 ≠ c))).find?
      (fun p => decide (p.1 = c')) = r.cells.find? (fun p => decide (p.1 = c')) := by
    refine find?_filter_of_imp _ (fun a ha => ?_)
    have ha2 : a.1 = c' := of_decide_eq_true ha
    rw [ha2]
    simpa using h
  rw [h2, h3, Option.or_none]

/-! ## Matcher structure lemmas -/

theorem find?_idx_of_nodup {l : List Row} (h : (idxsOf l).Nodup) {r : Row}
    (hr : r ∈ l) : l.find? (fun x => decide (x.idx = r.idx)) = some r := by
  induction l with
  | nil => cases hr
  | cons x xs ih =>
    simp only [idxsOf, List.map_cons, List.nodup_cons] at h
    rcases List.mem_cons.mp hr with rfl | hr'
    · rw [List.find?_cons_of_pos _ (by simp)]
    · have hne : ¬ (x.idx = r.idx) := by
        intro he
        refine h.1 ?_
        rw [he]
        exact List.mem_map_of_mem Row.idx hr'
      rw [List.find?_cons_of_neg _ (by simpa using hne)]
      exact ih h.2 hr'

theorem mem_groupbyRows {rows : List Row} {keys : List String}
    {g : List (Option ℚ) × List Row} (hg : g ∈ groupbyRows rows keys) :
    g.2 = (rows.filter (fun r => (keyOf keys r).all Option.isSome)).filter
      (fun r => decide (keyOf keys r = g.1)) := by
  unfold groupbyRows at hg
  obtain ⟨k, _, hk⟩ := List.mem_map.mp hg
  rw [← hk]

theorem groupbyRows_rows_mem {rows : List Row} {keys : List String}
    {g : List (Option ℚ) × List Row} (hg : g ∈ groupbyRows rows keys)
    {r : Row} (hr : r ∈ g.2) : r ∈ rows ∧ keyOf keys r = g.1 := by
  rw [mem_groupbyRows hg] at hr
  have h1 := List.mem_filter.mp hr
  have h2 := List.mem_filter.mp h1.1
  exact ⟨h2.1, of_decide_eq_true h1.2⟩

theorem groupbyRows_keys_pairwise (rows : List Row) (keys : List String) :
    (groupbyRows rows keys).Pairwise (fun g1 g2 => g1.1 ≠ g2.1) := by
  unfold groupbyRows
  rw [List.pairwise_map]
  exact (nodup_firstDedup _).imp (fun h => h)

theorem groupbyRows_idx_disjoint {rows : List Row} {keys : List String}
    (hnd : (idxsOf rows).Nodup) {g1 g2 : List (Option ℚ) × List Row}
    (h1 : g1 ∈ groupbyRows rows keys) (h2 : g2 ∈ groupbyRows rows keys)
    (hk : g1.1 ≠ g2.1) : ∀ x ∈ idxsOf g1.2, x ∉ idxsOf g2.2 := by
  intro x hx1 hx2
  obtain ⟨r1, hr1, hrx1⟩ := List.mem_map.mp hx1
  obtain ⟨r2, hr2, hrx2⟩ := List.mem_map.mp hx2
  obtain ⟨hr1m, hk1⟩ := groupbyRows_rows_mem h1 hr1
  obtain ⟨hr2m, hk2⟩ := groupbyRows_rows_mem h2 hr2
  have heq : r1 = r2 := nodup_map_mem_inj hnd hr1m hr2m (by rw [hrx1, hrx2])
  exact hk (by rw [← hk1, heq, hk2])

theorem processGroups_strata (t : String) (lev : Nat) (cur : List String) :
    ∀ (gs : List (List (Option ℚ) × List Row)) (rem : List Row),
    (processGroups t lev cur gs rem).1 =
      (gs.filter (fun g => decide (nuniqueRows g.2 t = lev))).map
        (fun g => (cur, g.2)) := by
  intro gs
  induction gs with
  | nil => intro rem; rfl
  | cons g gs ih =>
    intro rem
    by_cases hg : nuniqueRows g.2 t = lev <;>
      simp [processGroups, hg, ih, List.filter_cons]

theorem processGroups_rem_mem (t : String) (lev : Nat) (cur : List String) :
    ∀ (gs : List (List (Option ℚ) × List Row)) (rem : List Row) (r : Row),
    r ∈ (processGroups t lev cur gs rem).2 ↔
      r ∈ rem ∧ ∀ g ∈ gs, nuniqueRows g.2 t = lev → r.idx ∉ idxsOf g.2 := by
  intro gs
  induction gs with
  | nil => intro rem r; simp [processGroups]
  | cons g gs ih =>
    intro rem r
    by_cases hg : nuniqueRows g.2 t = lev
    · simp only [processGroups, if_pos hg]
      rw [ih, List.mem_filter]
      constructor
      · rintro ⟨⟨h1, h2⟩, h3⟩
        refine ⟨h1, fun g' hg' hlev => ?_⟩
        rcases List.mem_cons.mp hg' with rfl | hg''
        · simpa using h2
        · exact h3 g' hg'' hlev
      · rintro ⟨h1, h2⟩
        exact ⟨⟨h1, by simpa using h2 g (List.mem_cons_self _ _) hg⟩,
          fun g' hg' hlev => h2 g' (List.mem_cons_of_mem _ hg') hlev⟩
    · simp only [processGroups, if_neg hg]
      rw [ih]
      constructor
      · rintro ⟨h1, h2⟩
        refine ⟨h1, fun g' hg' hlev => ?_⟩
        rcases List.mem_cons.mp hg' with rfl | hg''
        · exact absurd hlev hg
        · exact h2 g' hg'' hlev
      · rintro ⟨h1, h2⟩
        exact ⟨h1, fun g' hg' hlev => h2 g' (List.mem_cons_of_mem _ hg') hlev⟩

theorem processGroups_rem_sublist (t : String) (lev : Nat) (cur : List String) :
    ∀ (gs : List (List (Option ℚ) × List Row)) (rem : List Row),
    (processGroups t lev cur gs rem).2.Sublist rem := by
  intro gs
  induction gs with
  | nil => intro rem; exact List.Sublist.refl _
  | cons g gs ih =>
    intro rem
    by_cases hg : nuniqueRows g.2 t = lev
    · simp only [processGroups, if_pos hg]
      exact (ih _).trans (List.filter_sublist _)
    · simp only [processGroups, if_neg hg]
      exact ih _

theorem matchLoop_succ_eq (covs : List String) (t : String) (lev : Nat)
    (n : Nat) (pool : List Row) :
    matchLoop covs t lev (n + 1) pool =
      if ((processGroups t lev (covs.take (n + 1))
            (groupbyRows pool (covs.take (n + 1))) pool).2.filter
          (fun r => qeq (r.val t) (some 1))).isEmpty then
        processGroups t lev (covs.take (n + 1))
          (groupbyRows pool (covs.take (n + 1))) pool
      else
        ((processGroups t lev (covs.take (n + 1))
            (groupbyRows pool (covs.take (n + 1))) pool).1 ++
          (matchLoop covs t lev n (processGroups t lev (covs.take (n + 1))
            (groupbyRows pool (covs.take (n + 1))) pool).2).1,
         (matchLoop covs t lev n (processGroups t lev (covs.take (n + 1))
            (groupbyRows pool (covs.take (n + 1))) pool).2).2) := rfl

theorem matchLoop_strata_sub (covs : List String) (t : String) (lev : Nat) :
    ∀ (fuel : Nat) (pool : List Row) (s : List String × List Row),
      s ∈ (matchLoop covs t lev fuel pool).1 → ∀ r ∈ s.2, r ∈ pool := by
  intro fuel
  induction fuel with
  | zero => intro pool s hs; exact absurd hs (List.not_mem_nil _)
  | succ n ih =>
    intro pool s hs r hr
    rw [matchLoop_succ_eq] at hs
    set P := processGroups t lev (covs.take (n + 1))
      (groupbyRows pool (covs.take (n + 1))) pool with hP
    by_cases hempty : (P.2.filter (fun r => qeq (r.val t) (some 1))).isEmpty = true
    · rw [if_pos hempty] at hs
      rw [hP, processGroups_strata] at hs
      obtain ⟨g, hgf, rfl⟩ := List.mem_map.mp hs
      exact (groupbyRows_rows_mem (List.mem_filter.mp hgf).1 hr).1
    · rw [if_neg hempty] at hs
      rcases List.mem_append.mp hs with hs1 | hs2
      · rw [hP, processGroups_strata] at hs1
        obtain ⟨g, hgf, rfl⟩ := List.mem_map.mp hs1
        exact (groupbyRows_rows_mem (List.mem_filter.mp hgf).1 hr).1
      · have hmem := ih _ _ hs2 r hr
        exact (processGroups_rem_sublist t lev _ _ _).subset hmem

theorem matchLoop_rem_sublist (covs : List String) (t : String) (lev : Nat) :
    ∀ (fuel : Nat) (pool : List Row),
      (matchLoop covs t lev fuel pool).2.Sublist pool := by
  intro fuel
  induction fuel with
  | zero => intro pool; exact List.Sublist.refl _
  | succ n ih =>
    intro pool
    rw [matchLoop_succ_eq]
    by_cases hempty : (((processGroups t lev (covs.take (n + 1))
        (groupbyRows pool (covs.take (n + 1))) pool).2.filter
        (fun r => qeq (r.val t) (some 1))).isEmpty) = true
    · rw [if_pos hempty]
      exact processGroups_rem_sublist t lev _ _ _
    · rw [if_neg hempty]
      exact (ih _).trans (processGroups_rem_sublist t lev _ _ _)

theorem strata_notmem_iff (gs : List (List (Option ℚ) × List Row))
    (cur : List String) (t : String) (lev : Nat) (i : Nat) :
    (∀ s ∈ (gs.filter (fun g => decide (nuniqueRows g.2 t = lev))).map
        (fun g => (cur, g.2)), i ∉ idxsOf s.2) ↔
      (∀ g ∈ gs, nuniqueRows g.2 t = lev → i ∉ idxsOf g.2) := by
  constructor
  · intro h g hg hlev
    refine h (cur, g.2) (List.mem_map.mpr ⟨g, List.mem_filter.mpr ⟨hg, by simpa using hlev⟩, rfl⟩)
  · rintro h s hs
    obtain ⟨g, hgf, rfl⟩ := List.mem_map.mp hs
    have hgm := List.mem_filter.mp hgf
    exact h g hgm.1 (by simpa using hgm.2)

theorem matchLoop_rem_mem (covs : List String) (t : String) (lev : Nat) :
    ∀ (fuel : Nat) (pool : List Row) (r : Row),
      r ∈ (matchLoop covs t lev fuel pool).2 ↔
        r ∈ pool ∧ ∀ s ∈ (matchLoop covs t lev fuel pool).1, r.idx ∉ idxsOf s.2 := by
  intro fuel
  induction fuel with
  | zero => intro pool r; simp [matchLoop]
  | succ n ih =>
    intro pool r
    rw [matchLoop_succ_eq]
    set P := processGroups t lev (covs.take (n + 1))
      (groupbyRows pool (covs.take (n + 1))) pool with hP
    by_cases hempty : (P.2.filter (fun r => qeq (r.val t) (some 1))).isEmpty = true
    · rw [if_pos hempty]
      rw [hP, processGroups_rem_mem, processGroups_strata]
      rw [strata_notmem_iff]
    · rw [if_neg hempty]
      simp only []
      rw [ih]
      rw [hP, processGroups_rem_mem]
      constructor
      · rintro ⟨⟨h1, h2⟩, h3⟩
        refine ⟨h1, fun s hs => ?_⟩
        rcases List.mem_append.mp hs with hs1 | hs2
        · rw [processGroups_strata] at hs1
          exact (strata_notmem_iff _ _ _ _ _).mpr h2 s hs1
        · exact h3 s hs2
      · rintro ⟨h1, h2⟩
        refine ⟨⟨h1, ?_⟩, fun s hs => h2 s (List.mem_append.mpr (Or.inr hs))⟩
        rw [← strata_notmem_iff _ (covs.take (n + 1))]
        intro s hs
        refine h2 s (List.mem_append.mpr (Or.inl ?_))
        rw [processGroups_strata]
        exact hs

theorem matchLoop_pairwise (covs : List String) (t : String) (lev : Nat) :
    ∀ (fuel : Nat) (pool : List Row), (idxsOf pool).Nodup →
      ((matchLoop covs t lev fuel pool).1).Pairwise
        (fun s1 s2 => ∀ x ∈ idxsOf s1.2, x ∉ idxsOf s2.2) := by
  intro fuel
  induction fuel with
  | zero => intro pool _; exact List.Pairwise.nil
  | succ n ih =>
    intro pool hnd
    rw [matchLoop_succ_eq]
    set cur := covs.take (n + 1) with hcur
    set P := processGroups t lev cur (groupbyRows pool cur) pool with hP
    have hstep1 : P.1.Pairwise (fun s1 s2 => ∀ x ∈ idxsOf s1.2, x ∉ idxsOf s2.2) := by
      rw [hP, processGroups_strata]
      have h1 := groupbyRows_keys_pairwise pool cur
      have h2 : ((groupbyRows pool cur).filter
          (fun g => decide (nuniqueRows g.2 t = lev))).Pairwise
          (fun g1 g2 => g1.1 ≠ g2.1) :=
        List.Pairwise.sublist (List.filter_sublist _) h1
      rw [List.pairwise_map]
      refine List.Pairwise.imp_of_mem ?_ h2
      intro a b ha hb hne
      exact groupbyRows_idx_disjoint hnd (List.mem_filter.mp ha).1
        (List.mem_filter.mp hb).1 hne
    by_cases hempty : (P.2.filter (fun r => qeq (r.val t) (some 1))).isEmpty = true
    · rw [if_pos hempty]
      exact hstep1
    · rw [if_neg hempty]
      rw [List.pairwise_append]
      have hsubP : P.2.Sublist pool := by
        rw [hP]; exact processGroups_rem_sublist t lev cur _ pool
      have hndP : (idxsOf P.2).Nodup := by
        simp only [idxsOf] at hnd ⊢
        exact List.Nodup.sublist (hsubP.map Row.idx) hnd
      refine ⟨hstep1, ih _ hndP, ?_⟩
      intro s1 hs1 s2 hs2 x hx1 hx2
      obtain ⟨r2, hr2, hrx2⟩ := List.mem_map.mp hx2
      have hr2P : r2 ∈ P.2 := matchLoop_strata_sub covs t lev n P.2 s2 hs2 r2 hr2
      have hmem := (processGroups_rem_mem t lev cur (groupbyRows pool cur) pool r2)
      rw [← hP] at hmem
      have hr2pool := hmem.mp hr2P
      rw [hP, processGroups_strata] at hs1
      obtain ⟨g1, hg1f, rfl⟩ := List.mem_map.mp hs1
      have hg1m := List.mem_filter.mp hg1f
      have hnot := hr2pool.2 g1 hg1m.1 (by simpa using hg1m.2)
      rw [← hrx2] at hx1
      exact hnot hx1

/-! ## Claim theorems -/

unseal Rat.mul Rat.inv Rat.add Rat.sub in
/-- Claim C1 — code bug witness.  The dataset below passes validation
(all required columns present, treatment has exactly two distinct
values), the matcher forms no strata (its single covariate separates
treated from control), and `fit` then raises: the weight calculator
reaches `pd.concat` on an empty series list (`FitError.emptyConcat`)
instead of completing with null ATE/ATT and an empty matched corpus as
the spec prescribes. -/
theorem C1_fit_raises_when_no_strata :
    validate_input (Frame.mk ["t", "o", "x"]
      [Row.mk 0 [("t", some 1), ("o", some 0), ("x", some 0)],
       Row.mk 1 [("t", some 0), ("o", some 0), ("x", some 1)]])
      "t" "o" ["x"] [] = false ∧
    (exact_matching_with_importance (Frame.mk ["t", "o", "x"]
      [Row.mk 0 [("t", some 1), ("o", some 0), ("x", some 0)],
       Row.mk 1 [("t", some 0), ("o", some 0), ("x", some 1)]])
      "t" ["x"]).1 = [] ∧
    fit (Frame.mk ["t", "o", "x"]
      [Row.mk 0 [("t", some 1), ("o", some 0), ("x", some 0)],
       Row.mk 1 [("t", some 0), ("o", some 0), ("x", some 1)]])
      "t" "o" ["x"] [] ["x"] id = Except.error FitError.emptyConcat := by
  decide

/-- Claim C2: `fit` raises the validation error before any computation —
returning no result — if and only if some required column (treatment,
outcome, or a listed covariate) is absent from the input, or the
treatment column does not have exactly two distinct values.  The model
is pure, so the absence of side effects on the input is structural. -/
theorem C2_validation_error_iff (data : Frame) (t o : String)
    (cont disc : List String) (importanceOrder : List String)
    (coarsenFn : Frame → Frame) :
    fit data t o cont disc importanceOrder coarsenFn =
        Except.error FitError.validationError ↔
      ((∃ c ∈ [t, o] ++ cont ++ disc, c ∉ data.cols) ∨
        nuniqueRows data.rows t ≠ 2) := by
  constructor
  · intro h
    by_cases hv : validate_input data t o cont disc = true
    · unfold validate_input at hv
      simp only [Bool.or_eq_true, List.any_eq_true, decide_eq_true_eq] at hv
      exact hv
    · exfalso
      unfold fit at h
      rw [if_neg hv] at h
      split at h <;> dsimp only at h <;> split at h <;> simp at h
  · intro h
    have hv : validate_input data t o cont disc = true := by
      unfold validate_input
      simp only [Bool.or_eq_true, List.any_eq_true, decide_eq_true_eq]
      exact h
    unfold fit
    rw [if_pos hv]

/-- Claim C3: for any input frame with distinct index labels, the strata
produced by the exact matcher are pairwise disjoint in membership — no
index label appears in two strata — because each accepted group's
labels are dropped from the remaining pool before coarser subsets are
processed. -/
theorem C3_strata_pairwise_disjoint (df : Frame) (t : String)
    (covs : List String) (hnd : (idxsOf df.rows).Nodup) :
    ((exact_matching_with_importance df t covs).1).Pairwise
      (fun s1 s2 => ∀ x ∈ idxsOf s1.2.rows, x ∉ idxsOf s2.2.rows) := by
  unfold exact_matching_with_importance
  simp only []
  rw [List.pairwise_map]
  exact matchLoop_pairwise covs t _ covs.length df.rows hnd

unseal Rat.mul Rat.inv Rat.add Rat.sub in
/-- Claim C3 witness: a concrete input with unique labels on which the
matcher produces two strata; the disjointness theorem applies. -/
theorem C3_witness :
    (idxsOf (Frame.mk ["t", "x"]
      [Row.mk 0 [("t", some 1), ("x", some 1)],
       Row.mk 1 [("t", some 0), ("x", some 1)],
       Row.mk 2 [("t", some 1), ("x", some 2)],
       Row.mk 3 [("t", some 0), ("x", some 2)]]).rows).Nodup ∧
    ((exact_matching_with_importance (Frame.mk ["t", "x"]
      [Row.mk 0 [("t", some 1), ("x", some 1)],
       Row.mk 1 [("t", some 0), ("x", some 1)],
       Row.mk 2 [("t", some 1), ("x", some 2)],
       Row.mk 3 [("t", some 0), ("x", some 2)]]) "t" ["x"]).1).Pairwise
      (fun s1 s2 => ∀ x ∈ idxsOf s1.2.rows, x ∉ idxsOf s2.2.rows) :=
  ⟨by decide, C3_strata_pairwise_disjoint _ _ _ (by decide)⟩

unseal Rat.mul Rat.inv Rat.add Rat.sub in
/-- Claim C6 counterexample: the matcher's third returned value is
`remaining_df`, the whole remaining pool.  On this input (one covariate
that separates treated from control, so no stratum forms) it contains a
treated unit, refuting the claim that every unit in it belongs to the
control group. -/
theorem C6_counterexample :
    ∃ r ∈ (exact_matching_with_importance (Frame.mk ["t", "x"]
      [Row.mk 0 [("t", some 1), ("x", some 0)],
       Row.mk 1 [("t", some 0), ("x", some 1)]]) "t" ["x"]).2.2.1,
      r.val "t" = some 1 := by decide

/-- Claim C6 (amended): the third value returned by the exact-matching
routine is the entire remaining pool at termination: a row belongs to it
iff it is an input row whose index label was never claimed by a stratum.
It therefore contains exactly the unmatched units of BOTH groups — all
control units left in the pool, and any treated units left unmatched. -/
theorem C6_amended_third_is_remaining_pool (df : Frame) (t : String)
    (covs : List String) (r : Row) :
    r ∈ (exact_matching_with_importance df t covs).2.2.1 ↔
      (r ∈ df.rows ∧ ∀ s ∈ (exact_matching_with_importance df t covs).1,
        r.idx ∉ idxsOf s.2.rows) := by
  unfold exact_matching_with_importance
  simp only []
  rw [matchLoop_rem_mem]
  constructor
  · rintro ⟨h1, h2⟩
    refine ⟨h1, fun s hs => ?_⟩
    obtain ⟨s0, hs0, rfl⟩ := List.mem_map.mp hs
    exact h2 s0 hs0
  · rintro ⟨h1, h2⟩
    exact ⟨h1, fun s0 hs0 => h2 _ (List.mem_map.mpr ⟨s0, hs0, rfl⟩)⟩

/-! ## Fold-shape lemmas -/

theorem foldl_if_append_fst {σ : Type} (qual : σ → Bool) (f1 f2 : σ → List ℚ)
    (step : List ℚ × List ℚ → σ → List ℚ × List ℚ)
    (hstep : ∀ acc s, step acc s =
      if qual s then (acc.1 ++ f1 s, acc.2 ++ f2 s) else acc) :
    ∀ (l : List σ) (acc : List ℚ × List ℚ),
      (l.foldl step acc).1 = acc.1 ++ ((l.filter qual).map f1).flatten := by
  intro l
  induction l with
  | nil => intro acc; simp
  | cons s ss ih =>
    intro acc
    rw [List.foldl_cons, hstep, ih, List.filter_cons]
    by_cases hq : qual s = true
    · simp [hq, List.append_assoc]
    · simp [hq]

theorem foldl_append_pair {σ τ ρ : Type} (g1 : σ → List τ) (g2 : σ → List ρ)
    (step : List τ × List ρ → σ → List τ × List ρ)
    (hstep : ∀ acc s, step acc s = (acc.1 ++ g1 s, acc.2 ++ g2 s)) :
    ∀ (l : List σ) (acc : List τ × List ρ),
      l.foldl step acc =
        (acc.1 ++ (l.map g1).flatten, acc.2 ++ (l.map g2).flatten) := by
  intro l
  induction l with
  | nil => intro acc; simp
  | cons s ss ih =>
    intro acc
    rw [List.foldl_cons, hstep, ih]
    simp [List.append_assoc]

/-- Claim C5: the final ATE computed by `calculate_ate_att` is the
arithmetic mean of the list holding, for each qualifying stratum (one
carrying treatment, outcome and weight columns), the per-stratum ATE
(treated mean outcome minus the inverse-distance-weighted — else
plain — control mean) replicated once per treated unit, and `none` when
that list is empty. -/
theorem C5_ate_is_spec_mean (matched_dfs : List (List String × Frame))
    (treatment outcome weight : String) :
    (calculate_ate_att matched_dfs treatment outcome weight).1 =
      ateSpec matched_dfs treatment outcome weight := by
  unfold calculate_ate_att ateSpec
  dsimp only
  rw [foldl_if_append_fst
    (fun (s : List String × Frame) => decide (treatment ∈ s.2.cols) &&
      decide (outcome ∈ s.2.cols) && decide (weight ∈ s.2.cols))
    (fun (s : List String × Frame) =>
      List.replicate (s.2.rows.filter (fun r => qeq (r.val treatment) (some 1))).length
        (osum ((s.2.rows.filter (fun r => qeq (r.val treatment) (some 1))).map
            (fun r => r.val outcome)) /
          (((s.2.rows.filter (fun r => qeq (r.val treatment) (some 1))).length : ℕ) : ℚ) -
         (if decide ("inverse_distance" ∈ s.2.cols) then
            osum ((s.2.rows.filter (fun r => qeq (r.val treatment) (some 0))).map
                (fun r => omul (r.val outcome) (r.val "inverse_distance"))) /
              osum ((s.2.rows.filter (fun r => qeq (r.val treatment) (some 0))).map
                (fun r => r.val "inverse_distance"))
          else
            osum ((s.2.rows.filter (fun r => qeq (r.val treatment) (some 0))).map
                (fun r => r.val outcome)) /
              (((s.2.rows.filter (fun r => qeq (r.val treatment) (some 0))).length : ℕ) : ℚ))))
    (fun (s : List String × Frame) =>
      [osum ((s.2.rows.filter (fun r => qeq (r.val treatment) (some 1))).map
          (fun r => omul (r.val outcome) (r.val weight))) /
        osum ((s.2.rows.filter (fun r => qeq (r.val treatment) (some 1))).map
          (fun r => r.val weight)) -
       osum ((s.2.rows.filter (fun r => qeq (r.val treatment) (some 0))).map
          (fun r => omul (r.val outcome) (r.val weight))) /
        osum ((s.2.rows.filter (fun r => qeq (r.val treatment) (some 0))).map
          (fun r => r.val weight))])
    (ate_att_step treatment outcome weight) (fun acc s => rfl)]
  rfl

unseal Rat.mul Rat.inv Rat.add Rat.sub in
/-- Claim C10: the per-pair lookup in `unified_distance` selects a table
row by the unordered attribute pair only — re-tagging every row's
`Column_Name` never changes the result — and the FIRST matching row
wins.  Concretely, with a table holding a row for covariate `dA` and a
later row for covariate `dB` over the same category pair, scoring
covariate `dB` applies the `dA` row's distance 3/10, not the `dB` row's
7/10: the scored control's discrete distance evaluates to 3/10. -/
theorem C10_lookup_ignores_column_name :
    (∀ (table : List DistRow) (f : DistRow → String) (a b : Option ℚ),
      lookupDist (table.map (fun row =>
        DistRow.mk (f row) row.attribute_1 row.attribute_2 row.total_distance)) a b =
        lookupDist table a b) ∧
    lookupDist [DistRow.mk "dA" (some 1) (some 2) (3 / 10),
      DistRow.mk "dB" (some 1) (some 2) (7 / 10)] (some 1) (some 2) = 3 / 10 ∧
    frameVal (scoreStratum "t" "o" []
        [DistRow.mk "dA" (some 1) (some 2) (3 / 10),
         DistRow.mk "dB" (some 1) (some 2) (7 / 10)] ["dA", "dB"]
        (Frame.mk ["t", "o", "dA", "dB"]
          [Row.mk 0 [("t", some 1), ("o", some 0), ("dA", some 5), ("dB", some 1)],
           Row.mk 1 [("t", some 0), ("o", some 0), ("dA", some 5), ("dB", some 2)]])
        (["dA"], Frame.mk ["t", "o", "dA", "dB"]
          [Row.mk 0 [("t", some 1), ("o", some 0), ("dA", some 5), ("dB", some 1)],
           Row.mk 1 [("t", some 0), ("o", some 0), ("dA", some 5), ("dB", some 2)]])).2
      1 "discrete_distance" = some (3 / 10) := by
  refine ⟨?_, ?_, ?_⟩
  · intro table f a b
    unfold lookupDist
    rw [List.find?_map]
    have hc : ((fun (row : DistRow) =>
        (qeq row.attribute_1 a && qeq row.attribute_2 b) ||
        (qeq row.attribute_1 b && qeq row.attribute_2 a)) ∘ (fun row =>
          DistRow.mk (f row) row.attribute_1 row.attribute_2 row.total_distance)) =
        (fun (row : DistRow) =>
          (qeq row.attribute_1 a && qeq row.attribute_2 b) ||
          (qeq row.attribute_1 b && qeq row.attribute_2 a)) := rfl
    rw [hc]
    cases table.find? (fun (row : DistRow) =>
        (qeq row.attribute_1 a && qeq row.attribute_2 b) ||
        (qeq row.attribute_1 b && qeq row.attribute_2 a)) <;> rfl
  · decide
  · decide

theorem mem_addCol (cols : List String) (c : String) : c ∈ addCol cols c := by
  unfold addCol
  split
  · assumption
  · exact List.mem_append.mpr (Or.inr (List.mem_singleton.mpr rfl))

/-- Claim C7: a stratum whose defining covariate subset covers the full
covariate list is left unscored — `unified_distance`'s per-stratum body
returns it untouched — and conversely every stratum missing some
covariate from its subset is scored (the gate fires and the four derived
columns are appended).  Hypotheses: the stratum frame carries all
covariate columns, the continuous covariates are part of the full list
(as in `fit`, where `matched_list = continuous + discrete`), and the
frame is not yet scored. -/
theorem C7_scored_iff_subset_differs (treatment outcome : String)
    (continuous_cols : List String) (disc_distance : List DistRow)
    (matched_list : List String) (data : Frame) (cov : List String)
    (mdf : Frame)
    (hml : ∀ c ∈ matched_list, c ∈ mdf.cols)
    (hcont : ∀ c ∈ continuous_cols, c ∈ matched_list)
    (hfresh : "inverse_distance" ∉ mdf.cols) :
    scoreStratum treatment outcome continuous_cols disc_distance matched_list
        data (cov, mdf) = (cov, mdf) ↔ ∀ c ∈ matched_list, c ∈ cov := by
  constructor
  · intro h c hc
    by_contra hcc
    have hgate : scoreGate matched_list
        (mergedColumns mdf.cols cov continuous_cols) = true := by
      unfold scoreGate mergedColumns droppedCols
      rw [List.any_eq_true]
      refine ⟨c, List.mem_append.mpr (Or.inl ?_), by simpa using hc⟩
      exact List.mem_filter.mpr ⟨hml c hc, by simpa using hcc⟩
    unfold scoreStratum at h
    dsimp only at h
    rw [if_pos hgate] at h
    have hcols := congrArg (fun p => p.2.cols) h
    dsimp only at hcols
    refine hfresh ?_
    rw [← hcols]
    exact mem_addCol _ _
  · intro hsub
    have hgate : scoreGate matched_list
        (mergedColumns mdf.cols cov continuous_cols) = false := by
      unfold scoreGate mergedColumns droppedCols
      rw [List.any_eq_false]
      intro c' hc'
      simp only [decide_eq_true_eq]
      rcases List.mem_append.mp hc' with hc1 | hc2
      · have hm := List.mem_filter.mp hc1
        intro hcml
        exact (of_decide_eq_true hm.2) (hsub c' hcml)
      · obtain ⟨b, hb, rfl⟩ := List.mem_map.mp hc2
        have hbm := List.mem_filter.mp hb
        have hbc : b ∈ matched_list := hcont b hbm.1
        have hbcols := List.mem_filter.mp (of_decide_eq_true hbm.2)
        exact absurd (hsub b hbc) (of_decide_eq_true hbcols.2)
    unfold scoreStratum
    dsimp only
    rw [if_neg (by simp [hgate])]

unseal Rat.mul Rat.inv Rat.add Rat.sub in
/-- Claim C7 witness: a concrete stratum matched on the full covariate
list `["d1", "d2"]`; the hypotheses hold and the scored-iff-differs
equivalence applies (here deciding that the stratum is left untouched). -/
theorem C7_witness :
    (∀ c ∈ ["d1", "d2"], c ∈ (Frame.mk ["t", "o", "d1", "d2"]
      [Row.mk 0 [("t", some 1)], Row.mk 1 [("t", some 0)]]).cols) ∧
    (∀ c ∈ ([] : List String), c ∈ ["d1", "d2"]) ∧
    "inverse_distance" ∉ (Frame.mk ["t", "o", "d1", "d2"]
      [Row.mk 0 [("t", some 1)], Row.mk 1 [("t", some 0)]]).cols ∧
    (scoreStratum "t" "o" [] [] ["d1", "d2"] (Frame.mk [] [])
        (["d1", "d2"], Frame.mk ["t", "o", "d1", "d2"]
          [Row.mk 0 [("t", some 1)], Row.mk 1 [("t", some 0)]]) =
        (["d1", "d2"], Frame.mk ["t", "o", "d1", "d2"]
          [Row.mk 0 [("t", some 1)], Row.mk 1 [("t", some 0)]]) ↔
      ∀ c ∈ ["d1", "d2"], c ∈ ["d1", "d2"]) :=
  ⟨by decide, by decide, by decide,
    C7_scored_iff_subset_differs "t" "o" [] [] ["d1", "d2"] (Frame.mk [] [])
      ["d1", "d2"] (Frame.mk ["t", "o", "d1", "d2"]
        [Row.mk 0 [("t", some 1)], Row.mk 1 [("t", some 0)]])
      (by decide) (by decide) (by decide)⟩

/-! ## Weight-series lemmas -/

theorem seriesVal_append (w1 w2 : List (Nat × Option ℚ)) (i : Nat) :
    seriesVal (w1 ++ w2) i = (seriesVal w1 i).or (seriesVal w2 i) := by
  unfold seriesVal
  rw [List.find?_append]
  cases w1.find? (fun p => decide (p.1 = i)) <;> rfl

theorem seriesVal_none_of_forall {w : List (Nat × Option ℚ)} {i : Nat}
    (h : ∀ p ∈ w, p.1 ≠ i) : seriesVal w i = none := by
  unfold seriesVal
  rw [List.find?_eq_none.mpr (fun p hp => by simpa using h p hp)]
  rfl

theorem seriesVal_rowmap_mem {l : List Row} (g : Row → Option ℚ)
    (hnd : (idxsOf l).Nodup) {r : Row} (hr : r ∈ l) :
    seriesVal (l.map (fun x => (x.idx, g x))) r.idx = some (g r) := by
  unfold seriesVal
  rw [List.find?_map]
  have hc : ((fun (p : Nat × Option ℚ) => decide (p.1 = r.idx)) ∘
      (fun (x : Row) => (x.idx, g x))) =
      (fun (x : Row) => decide (x.idx = r.idx)) := rfl
  rw [hc, find?_idx_of_nodup hnd hr]
  rfl

theorem seriesVal_rowmap_not_mem {l : List Row} (g : Row → Option ℚ)
    {i : Nat} (hi : i ∉ idxsOf l) :
    seriesVal (l.map (fun x => (x.idx, g x))) i = none := by
  refine seriesVal_none_of_forall (fun p hp => ?_)
  obtain ⟨x, hx, rfl⟩ := List.mem_map.mp hp
  exact fun he => hi (he ▸ List.mem_map_of_mem Row.idx hx)

theorem flatten_flatten {α : Type} (L : List (List (List α))) :
    L.flatten.flatten = (L.map List.flatten).flatten := by
  induction L with
  | nil => rfl
  | cons x xs ih =>
    rw [List.flatten_cons, List.flatten_append, ih, List.map_cons,
      List.flatten_cons]

/-- Every key in a stratum's weight series is an index label of the
stratum's rows. -/
theorem stratum_weight_series_keys (t : String) (Mt Mc : ℕ)
    (s : List String × Frame) {p : Nat × Option ℚ}
    (hp : p ∈ (stratum_weight_series t Mt Mc s).flatten) :
    p.1 ∈ idxsOf s.2.rows := by
  unfold stratum_weight_series at hp
  dsimp only at hp
  rw [List.flatten_append] at hp
  rcases List.mem_append.mp hp with h1 | h2
  · rw [List.flatten_cons, List.flatten_nil, List.append_nil] at h1
    obtain ⟨x, hx, rfl⟩ := List.mem_map.mp h1
    exact List.mem_map_of_mem Row.idx ((List.mem_filter.mp hx).1)
  · split at h2
    · rw [List.flatten_cons, List.flatten_nil, List.append_nil] at h2
      obtain ⟨x, hx, rfl⟩ := List.mem_map.mp h2
      exact List.mem_map_of_mem Row.idx ((List.mem_filter.mp hx).1)
    · rw [List.flatten_nil] at h2
      cases h2

/-- Lookup of a row's label in the concatenated weight series resolves
inside the row's own stratum. -/
theorem seriesVal_flatten_strata (t : String) (Mt Mc : ℕ) :
    ∀ (bm : List (List String × Frame)),
      ((bm.map (fun s => idxsOf s.2.rows)).flatten).Nodup →
      ∀ {s : List String × Frame}, s ∈ bm → ∀ {r : Row}, r ∈ s.2.rows →
      seriesVal ((bm.map (fun s' =>
          (stratum_weight_series t Mt Mc s').flatten)).flatten) r.idx =
        seriesVal ((stratum_weight_series t Mt Mc s).flatten) r.idx := by
  intro bm
  induction bm with
  | nil => intro _ s hs; cases hs
  | cons s0 ss ih =>
    intro hnd s hs r hr
    rw [List.map_cons, List.flatten_cons] at hnd ⊢
    rw [seriesVal_append]
    rw [List.nodup_append] at hnd
    rcases List.mem_cons.mp hs with rfl | hs'
    · have hrest : seriesVal ((ss.map (fun s' =>
          (stratum_weight_series t Mt Mc s').flatten)).flatten) r.idx = none := by
        refine seriesVal_none_of_forall (fun p hp => fun he => ?_)
        obtain ⟨part, hpart, hppart⟩ := List.mem_flatten.mp hp
        obtain ⟨s', hs'', rfl⟩ := List.mem_map.mp hpart
        have hkey := stratum_weight_series_keys t Mt Mc s' hppart
        have hyi : r.idx ∈ idxsOf s.2.rows := List.mem_map_of_mem Row.idx hr
        refine hnd.2.2 hyi ?_
        rw [← he]
        exact List.mem_flatten.mpr ⟨idxsOf s'.2.rows,
          List.mem_map.mpr ⟨s', hs'', rfl⟩, hkey⟩
      rw [hrest, Option.or_none]
    · have hhead : seriesVal ((stratum_weight_series t Mt Mc s0).flatten) r.idx = none := by
        refine seriesVal_none_of_forall (fun p hp => fun he => ?_)
        have hkey := stratum_weight_series_keys t Mt Mc s0 hp
        have hyi : r.idx ∈ idxsOf s.2.rows := List.mem_map_of_mem Row.idx hr
        refine hnd.2.2 (he ▸ hkey) ?_
        exact List.mem_flatten.mpr ⟨idxsOf s.2.rows,
          List.mem_map.mpr ⟨s, hs', rfl⟩, hyi⟩
      rw [hhead, Option.none_or]
      exact ih hnd.2.1 hs' hr

theorem qeq_some_iff (a : Option ℚ) (q : ℚ) : qeq a (some q) = true ↔ a = some q := by
  cases a with
  | none => simp [qeq]
  | some x => simp [qeq]

theorem not_mem_treated_of_control {rows : List Row} {t : String}
    (hnd : (idxsOf rows).Nodup) {r : Row} (hr : r ∈ rows)
    (hc : qeq (r.val t) (some 0) = true) :
    r.idx ∉ idxsOf (rows.filter (fun x => qeq (x.val t) (some 1))) := by
  intro hmem
  obtain ⟨r', hr', he⟩ := List.mem_map.mp hmem
  have hr'f := List.mem_filter.mp hr'
  have : r' = r := nodup_map_mem_inj hnd hr'f.1 hr he
  rw [this] at hr'f
  rw [qeq_some_iff] at hc hr'f
  · rw [hc] at hr'f
    exact absurd (Option.some.inj hr'f.2) (by norm_num)

theorem not_mem_control_of_treated {rows : List Row} {t : String}
    (hnd : (idxsOf rows).Nodup) {r : Row} (hr : r ∈ rows)
    (hc : qeq (r.val t) (some 1) = true) :
    r.idx ∉ idxsOf (rows.filter (fun x => qeq (x.val t) (some 0))) := by
  intro hmem
  obtain ⟨r', hr', he⟩ := List.mem_map.mp hmem
  have hr'f := List.mem_filter.mp hr'
  have : r' = r := nodup_map_mem_inj hnd hr'f.1 hr he
  rw [this] at hr'f
  rw [qeq_some_iff] at hc hr'f
  · rw [hc] at hr'f
    exact absurd (Option.some.inj hr'f.2) (by norm_num)


theorem flatten_map_singleton {α β : Type} (f : α → β) (l : List α) :
    (l.map (fun x => [f x])).flatten = l.map f := by
  induction l with
  | nil => rfl
  | cons x xs ih => simp [ih]

theorem weights_foldl_eq (t : String) (Mt Mc : ℕ) :
    ∀ (l : List (List String × Frame))
      (acc : List (List String × Frame) × List (List (Nat × Option ℚ))),
      l.foldl (weights_step t Mt Mc) acc =
        (acc.1 ++ l.map (weights_frame t Mt Mc),
         acc.2 ++ (l.map (stratum_weight_series t Mt Mc)).flatten) := by
  intro l
  induction l with
  | nil => intro acc; simp
  | cons s ss ih =>
    intro acc
    rw [List.foldl_cons, ih]
    unfold weights_step
    simp [List.append_assoc]

/-- Closed form of the weight calculator: `none` exactly when the
series list is empty (empty `best_matches`), otherwise the per-stratum
frames and the concatenated series. -/
theorem calculate_weights_closed_form (bm : List (List String × Frame)) (t : String) :
    calculate_weights_from_best_matches_inverse_append bm t =
      if ((bm.map (stratum_weight_series t
          ((bm.map (fun s => (s.2.rows.filter (fun x => qeq (x.val t) (some 1))).length)).sum)
          ((bm.map (fun s => (s.2.rows.filter (fun x => qeq (x.val t) (some 0))).length)).sum))).flatten).isEmpty = true
      then none
      else some (bm.map (weights_frame t
          ((bm.map (fun s => (s.2.rows.filter (fun x => qeq (x.val t) (some 1))).length)).sum)
          ((bm.map (fun s => (s.2.rows.filter (fun x => qeq (x.val t) (some 0))).length)).sum)),
        ((bm.map (stratum_weight_series t
          ((bm.map (fun s => (s.2.rows.filter (fun x => qeq (x.val t) (some 1))).length)).sum)
          ((bm.map (fun s => (s.2.rows.filter (fun x => qeq (x.val t) (some 0))).length)).sum))).flatten).flatten) := by
  unfold calculate_weights_from_best_matches_inverse_append
  dsimp only
  rw [weights_foldl_eq]
  rw [List.nil_append, List.nil_append]

theorem nodup_stratum_of_global {bm : List (List String × Frame)}
    (hnd : ((bm.map (fun s => idxsOf s.2.rows)).flatten).Nodup)
    {s : List String × Frame} (hs : s ∈ bm) : (idxsOf s.2.rows).Nodup :=
  List.Nodup.sublist
    (List.sublist_flatten_of_mem
      (List.mem_map_of_mem (fun s => idxsOf s.2.rows) hs)) hnd

theorem seriesVal_own_treated (t : String) (Mt Mc : ℕ)
    (s : List String × Frame) (hnds : (idxsOf s.2.rows).Nodup) {r : Row}
    (hr : r ∈ s.2.rows) (ht : qeq (r.val t) (some 1) = true) :
    seriesVal ((stratum_weight_series t Mt Mc s).flatten) r.idx =
      some (if "inverse_distance" ∈ s.2.cols then
        omul (some 1) (r.val "inverse_distance") else some 1) := by
  have hndT : (idxsOf (s.2.rows.filter (fun x => qeq (x.val t) (some 1)))).Nodup := by
    simp only [idxsOf] at hnds ⊢
    exact List.Nodup.sublist ((List.filter_sublist _).map Row.idx) hnds
  have hmem : r ∈ s.2.rows.filter (fun x => qeq (x.val t) (some 1)) :=
    List.mem_filter.mpr ⟨hr, ht⟩
  unfold stratum_weight_series
  dsimp only
  simp only [List.flatten_append, List.flatten_cons, List.flatten_nil,
    List.append_nil]
  rw [seriesVal_append, seriesVal_rowmap_mem _ hndT hmem]
  simp only [Option.or, decide_eq_true_eq]

theorem seriesVal_own_control_pos (t : String) (Mt Mc : ℕ)
    (s : List String × Frame) (hnds : (idxsOf s.2.rows).Nodup) {r : Row}
    (hr : r ∈ s.2.rows) (hc : qeq (r.val t) (some 0) = true)
    (hguard : 0 < (s.2.rows.filter (fun x => qeq (x.val t) (some 1))).length ∧
      0 < (s.2.rows.filter (fun x => qeq (x.val t) (some 0))).length) :
    seriesVal ((stratum_weight_series t Mt Mc s).flatten) r.idx =
      some (if "inverse_distance" ∈ s.2.cols then
        omul (some (((Mc : ℚ) / (Mt : ℚ)) *
          (((s.2.rows.filter (fun x => qeq (x.val t) (some 1))).length : ℚ) /
            ((s.2.rows.filter (fun x => qeq (x.val t) (some 0))).length : ℚ))))
          (r.val "inverse_distance")
      else some (((Mc : ℚ) / (Mt : ℚ)) *
          (((s.2.rows.filter (fun x => qeq (x.val t) (some 1))).length : ℚ) /
            ((s.2.rows.filter (fun x => qeq (x.val t) (some 0))).length : ℚ)))) := by
  have hndC : (idxsOf (s.2.rows.filter (fun x => qeq (x.val t) (some 0)))).Nodup := by
    simp only [idxsOf] at hnds ⊢
    exact List.Nodup.sublist ((List.filter_sublist _).map Row.idx) hnds
  have hmem : r ∈ s.2.rows.filter (fun x => qeq (x.val t) (some 0)) :=
    List.mem_filter.mpr ⟨hr, hc⟩
  unfold stratum_weight_series
  dsimp only
  have hgb : (decide (0 < (s.2.rows.filter (fun x => qeq (x.val t) (some 1))).length) &&
      decide (0 < (s.2.rows.filter (fun x => qeq (x.val t) (some 0))).length)) = true := by
    simp [hguard.1, hguard.2]
  rw [if_pos hgb]
  simp only [List.flatten_append, List.flatten_cons, List.flatten_nil,
    List.append_nil]
  rw [seriesVal_append,
    seriesVal_rowmap_not_mem _ (not_mem_treated_of_control hnds hr hc),
    Option.none_or, seriesVal_rowmap_mem _ hndC hmem]
  simp only [decide_eq_true_eq]

theorem seriesVal_own_control_neg (t : String) (Mt Mc : ℕ)
    (s : List String × Frame) (hnds : (idxsOf s.2.rows).Nodup) {r : Row}
    (hr : r ∈ s.2.rows) (hc : qeq (r.val t) (some 0) = true)
    (hng : ¬(0 < (s.2.rows.filter (fun x => qeq (x.val t) (some 1))).length ∧
      0 < (s.2.rows.filter (fun x => qeq (x.val t) (some 0))).length)) :
    seriesVal ((stratum_weight_series t Mt Mc s).flatten) r.idx = none := by
  unfold stratum_weight_series
  dsimp only
  have hgb : (decide (0 < (s.2.rows.filter (fun x => qeq (x.val t) (some 1))).length) &&
      decide (0 < (s.2.rows.filter (fun x => qeq (x.val t) (some 0))).length)) = false := by
    rcases Decidable.not_and_iff_or_not.mp hng with h | h <;> simp [h]
  rw [if_neg (by simp [hgb])]
  simp only [List.flatten_append, List.flatten_cons, List.flatten_nil,
    List.append_nil]
  exact seriesVal_rowmap_not_mem _ (not_mem_treated_of_control hnds hr hc)

/-- Claim C4: per-unit weights.  When the weight calculation succeeds,
in every stratum each treated unit's weight is 1 times its inverse
distance when the stratum carries that column (else 1); each control
unit's weight is `(M_control / M_treated) * (n_t / n_c)` times its
inverse distance when present (else that ratio), where `M_treated` and
`M_control` are the global matched treated/control counts; and when
`n_t` or `n_c` is zero no control weight is emitted for that stratum —
the source guards the ratio behind `n_t > 0 and n_c > 0`, so the
division is never formed there. -/
theorem C4_per_unit_weights (bm : List (List String × Frame)) (t : String)
    (hnd : ((bm.map (fun s => idxsOf s.2.rows)).flatten).Nodup)
    (res : List (List String × Frame) × List (Nat × Option ℚ))
    (hres : calculate_weights_from_best_matches_inverse_append bm t = some res) :
    ∀ s ∈ bm, ∀ r ∈ s.2.rows,
      let M_treated : ℕ := (bm.map (fun s' =>
        (s'.2.rows.filter (fun x => qeq (x.val t) (some 1))).length)).sum
      let M_control : ℕ := (bm.map (fun s' =>
        (s'.2.rows.filter (fun x => qeq (x.val t) (some 0))).length)).sum
      let n_t : ℕ := (s.2.rows.filter (fun x => qeq (x.val t) (some 1))).length
      let n_c : ℕ := (s.2.rows.filter (fun x => qeq (x.val t) (some 0))).length
      let weight_control : ℚ :=
        ((M_control : ℚ) / (M_treated : ℚ)) * ((n_t : ℚ) / (n_c : ℚ))
      (qeq (r.val t) (some 1) = true →
        seriesVal res.2 r.idx = some (if "inverse_distance" ∈ s.2.cols then
          omul (some 1) (r.val "inverse_distance") else some 1)) ∧
      (qeq (r.val t) (some 0) = true →
        ((0 < n_t ∧ 0 < n_c →
          seriesVal res.2 r.idx = some (if "inverse_distance" ∈ s.2.cols then
            omul (some weight_control) (r.val "inverse_distance")
          else some weight_control)) ∧
         (¬(0 < n_t ∧ 0 < n_c) → seriesVal res.2 r.idx = none))) := by
  intro s hs r hr
  rw [calculate_weights_closed_form] at hres
  split at hres
  · cases hres
  · rw [Option.some.injEq] at hres
    have hres2 := congrArg Prod.snd hres
    dsimp only at hres2
    rw [← hres2, flatten_flatten, List.map_map]
    have hcomp : (List.flatten ∘ stratum_weight_series t
        ((bm.map (fun s' => (s'.2.rows.filter (fun x => qeq (x.val t) (some 1))).length)).sum)
        ((bm.map (fun s' => (s'.2.rows.filter (fun x => qeq (x.val t) (some 0))).length)).sum)) =
        (fun s' => (stratum_weight_series t
          ((bm.map (fun s' => (s'.2.rows.filter (fun x => qeq (x.val t) (some 1))).length)).sum)
          ((bm.map (fun s' => (s'.2.rows.filter (fun x => qeq (x.val t) (some 0))).length)).sum)
          s').flatten) := rfl
    rw [hcomp, seriesVal_flatten_strata _ _ _ bm hnd hs hr]
    have hnds := nodup_stratum_of_global hnd hs
    refine ⟨fun ht => ?_, fun hc => ⟨fun hguard => ?_, fun hng => ?_⟩⟩
    · exact seriesVal_own_treated _ _ _ _ hnds hr ht
    · exact seriesVal_own_control_pos _ _ _ _ hnds hr hc hguard
    · exact seriesVal_own_control_neg _ _ _ _ hnds hr hc hng

unseal Rat.mul Rat.inv Rat.add Rat.sub in
/-- Claim C4 witness: one concrete stratum (one treated, one control
unit, no inverse-distance column); the hypotheses hold and the per-unit
weight characterisation applies, with the weight series evaluating to
weight 1 for both units (`M_control/M_treated = n_t/n_c = 1`). -/
theorem C4_witness :
    (([(["x"], Frame.mk ["t", "o", "x"]
        [Row.mk 0 [("t", some 1), ("o", some 2), ("x", some 3)],
         Row.mk 1 [("t", some 0), ("o", some 1), ("x", some 3)]])].map
      (fun s => idxsOf s.2.rows)).flatten).Nodup ∧
    calculate_weights_from_best_matches_inverse_append
      [(["x"], Frame.mk ["t", "o", "x"]
        [Row.mk 0 [("t", some 1), ("o", some 2), ("x", some 3)],
         Row.mk 1 [("t", some 0), ("o", some 1), ("x", some 3)]])] "t" =
      some ([(["x"], Frame.mk ["t", "o", "x", "weights"]
        [Row.mk 0 [("t", some 1), ("o", some 2), ("x", some 3), ("weights", some 1)],
         Row.mk 1 [("t", some 0), ("o", some 1), ("x", some 3), ("weights", some 1)]])],
        [(0, some 1), (1, some 1)]) ∧
    (∀ s ∈ [(["x"], Frame.mk ["t", "o", "x"]
        [Row.mk 0 [("t", some 1), ("o", some 2), ("x", some 3)],
         Row.mk 1 [("t", some 0), ("o", some 1), ("x", some 3)]])],
      ∀ r ∈ s.2.rows,
      let M_treated : ℕ := ([(["x"], Frame.mk ["t", "o", "x"]
        [Row.mk 0 [("t", some 1), ("o", some 2), ("x", some 3)],
         Row.mk 1 [("t", some 0), ("o", some 1), ("x", some 3)]])].map (fun s' =>
        (s'.2.rows.filter (fun x => qeq (x.val "t") (some 1))).length)).sum
      let M_control : ℕ := ([(["x"], Frame.mk ["t", "o", "x"]
        [Row.mk 0 [("t", some 1), ("o", some 2), ("x", some 3)],
         Row.mk 1 [("t", some 0), ("o", some 1), ("x", some 3)]])].map (fun s' =>
        (s'.2.rows.filter (fun x => qeq (x.val "t") (some 0))).length)).sum
      let n_t : ℕ := (s.2.rows.filter (fun x => qeq (x.val "t") (some 1))).length
      let n_c : ℕ := (s.2.rows.filter (fun x => qeq (x.val "t") (some 0))).length
      let weight_control : ℚ :=
        ((M_control : ℚ) / (M_treated : ℚ)) * ((n_t : ℚ) / (n_c : ℚ))
      (qeq (r.val "t") (some 1) = true →
        seriesVal [(0, some 1), (1, some 1)] r.idx =
          some (if "inverse_distance" ∈ s.2.cols then
            omul (some 1) (r.val "inverse_distance") else some 1)) ∧
      (qeq (r.val "t") (some 0) = true →
        ((0 < n_t ∧ 0 < n_c →
          seriesVal [(0, some 1), (1, some 1)] r.idx =
            some (if "inverse_distance" ∈ s.2.cols then
              omul (some weight_control) (r.val "inverse_distance")
            else some weight_control)) ∧
         (¬(0 < n_t ∧ 0 < n_c) →
          seriesVal [(0, some 1), (1, some 1)] r.idx = none)))) :=
  ⟨by decide, by decide,
    C4_per_unit_weights
      [(["x"], Frame.mk ["t", "o", "x"]
        [Row.mk 0 [("t", some 1), ("o", some 2), ("x", some 3)],
         Row.mk 1 [("t", some 0), ("o", some 1), ("x", some 3)]])] "t"
      (by decide)
      ([(["x"], Frame.mk ["t", "o", "x", "weights"]
        [Row.mk 0 [("t", some 1), ("o", some 2), ("x", some 3), ("weights", some 1)],
         Row.mk 1 [("t", some 0), ("o", some 1), ("x", some 3), ("weights", some 1)]])],
        [(0, some 1), (1, some 1)])
      (by decide)⟩

/-! ## Scorer computation lemmas -/

theorem find?_idx_map_upd {l : List Row} (hnd : (idxsOf l).Nodup) (f : Row → Row)
    (hidx : ∀ x, (f x).idx = x.idx) {r : Row} (hr : r ∈ l) :
    (l.map f).find? (fun x => decide (x.idx = r.idx)) = some (f r) := by
  rw [List.find?_map]
  have hc : ((fun (x : Row) => decide (x.idx = r.idx)) ∘ f) =
      (fun x => decide (x.idx = r.idx)) := by
    funext x
    simp [Function.comp, hidx x]
  rw [hc, find?_idx_of_nodup hnd hr]
  rfl

theorem zipWith_map_add {β : Type} (a : List ℚ) (l : List β) (g h : β → ℚ)
    (hlen : a.length = l.length) :
    List.zipWith (· + ·) (List.zipWith (· + ·) a (l.map g)) (l.map h) =
      List.zipWith (· + ·) a (l.map (fun x => g x + h x)) := by
  induction l generalizing a with
  | nil => simp
  | cons x xs ih =>
    cases a with
    | nil => simp at hlen
    | cons y ys =>
      simp only [List.map_cons, List.zipWith_cons_cons]
      rw [ih ys (by simpa using hlen), add_assoc]

theorem zipWith_add_map_zero {β : Type} (base : List ℚ) (l : List β)
    (hlen : base.length = l.length) :
    List.zipWith (· + ·) base (l.map (fun _ => (0 : ℚ))) = base := by
  induction l generalizing base with
  | nil =>
    cases base with
    | nil => rfl
    | cons y ys => simp at hlen
  | cons x xs ih =>
    cases base with
    | nil => simp at hlen
    | cons y ys =>
      simp only [List.map_cons, List.zipWith_cons_cons, add_zero]
      rw [ih ys (by simpa using hlen)]

theorem foldl_zipWith_sum {σ : Type} (f : σ → Row → ℚ) (ctrl : List Row) :
    ∀ (cols : List σ) (base : List ℚ), base.length = ctrl.length →
      cols.foldl (fun acc i => List.zipWith (· + ·) acc (ctrl.map (f i))) base =
        List.zipWith (· + ·) base
          (ctrl.map (fun r => (cols.map (fun i => f i r)).sum)) := by
  intro cols
  induction cols with
  | nil =>
    intro base hlen
    simp only [List.foldl_nil, List.map_nil, List.sum_nil]
    rw [zipWith_add_map_zero base ctrl hlen]
  | cons i is ih =>
    intro base hlen
    rw [List.foldl_cons,
      ih _ (by simp [List.length_zipWith, hlen]),
      zipWith_map_add base ctrl (f i) _ hlen]
    simp only [List.map_cons, List.sum_cons]

theorem zipWith_add_replicate_zero {β : Type} (g : β → ℚ) (l : List β) :
    List.zipWith (· + ·) (List.replicate l.length (0 : ℚ)) (l.map g) = l.map g := by
  induction l with
  | nil => rfl
  | cons x xs ih =>
    simp only [List.length_cons, List.replicate_succ, List.map_cons,
      List.zipWith_cons_cons, zero_add]
    rw [ih]

theorem zip_self_map {α β : Type} (l : List α) (g : α → β) :
    l.zip (l.map g) = l.map (fun a => (a, g a)) := by
  induction l with
  | nil => rfl
  | cons x xs ih => simp only [List.map_cons, List.zip_cons_cons, ih]

theorem foldl_min_le (l : List ℚ) : ∀ (x a : ℚ), a ∈ x :: l → l.foldl min x ≤ a := by
  induction l with
  | nil =>
    intro x a ha
    rcases List.mem_cons.mp ha with hax | h
    · rw [hax]; simp
    · cases h
  | cons y ys ih =>
    intro x a ha
    rw [List.foldl_cons]
    rcases List.mem_cons.mp ha with hax | ha'
    · rw [hax]
      exact le_trans (ih (min x y) _ (List.mem_cons_self _ _)) (min_le_left x y)
    · rcases List.mem_cons.mp ha' with hay | ha''
      · rw [hay]
        exact le_trans (ih (min x y) _ (List.mem_cons_self _ _)) (min_le_right x y)
      · exact ih (min x y) a (List.mem_cons_of_mem _ ha'')

theorem le_foldl_max (l : List ℚ) : ∀ (x a : ℚ), a ∈ x :: l → a ≤ l.foldl max x := by
  induction l with
  | nil =>
    intro x a ha
    rcases List.mem_cons.mp ha with hax | h
    · rw [hax]; simp
    · cases h
  | cons y ys ih =>
    intro x a ha
    rw [List.foldl_cons]
    rcases List.mem_cons.mp ha with hax | ha'
    · rw [hax]
      exact le_trans (le_max_left x y) (ih (max x y) _ (List.mem_cons_self _ _))
    · rcases List.mem_cons.mp ha' with hay | ha''
      · rw [hay]
        exact le_trans (le_max_right x y) (ih (max x y) _ (List.mem_cons_self _ _))
      · exact ih (max x y) a (List.mem_cons_of_mem _ ha'')

theorem omin_le_of_mem {l : List ℚ} {mn a : ℚ} (h : omin l = some mn)
    (ha : a ∈ l) : mn ≤ a := by
  cases l with
  | nil => cases h
  | cons x xs =>
    unfold omin at h
    injection h with h
    rw [← h]
    exact foldl_min_le xs x a ha

theorem le_omax_of_mem {l : List ℚ} {mx a : ℚ} (h : omax l = some mx)
    (ha : a ∈ l) : a ≤ mx := by
  cases l with
  | nil => cases h
  | cons x xs =>
    unfold omax at h
    injection h with h
    rw [← h]
    exact le_foldl_max xs x a ha

theorem discTotals_eq (table : List DistRow) (data : Frame)
    (mdfCols cov contCols : List String) (rows : List Row) (ctrl : List Row)
    (cols : List String) :
    cols.foldl (fun acc i => List.zipWith (· + ·) acc
      (ctrl.map (fun r => lookupDist table
        (firstRowVal data mdfCols cov contCols rows i)
        (mval data mdfCols cov contCols r i))))
      (List.replicate ctrl.length (0 : ℚ)) =
      ctrl.map (fun r => (cols.map (fun i => lookupDist table
        (firstRowVal data mdfCols cov contCols rows i)
        (mval data mdfCols cov contCols r i))).sum) :=
  (foldl_zipWith_sum (fun i r => lookupDist table
    (firstRowVal data mdfCols cov contCols rows i)
    (mval data mdfCols cov contCols r i)) ctrl cols _ (by simp)).trans
    (by rw [zipWith_add_replicate_zero])

unseal Rat.mul Rat.inv Rat.add Rat.sub in
/-- Claim C8 counterexample.  In this scored stratum the FIRST row of
the frame is a control unit with category 2 on covariate `d2`, while the
treated units all share category 1.  The pairwise table holds distance
1/2 for the pair (1, 2).  The claim predicts the control's discrete
distance to be the table distance between the treated category and the
control's category, 1/2; the code instead looks up
(`df_merged[i].iloc[0]`, control) = (2, 2), finds no row, and writes 0. -/
theorem C8_counterexample :
    (scoreStratum "t" "o" [] [DistRow.mk "d2" (some 1) (some 2) (1 / 2)]
        ["d1", "d2"]
        (Frame.mk ["t", "o", "d1", "d2"]
          [Row.mk 0 [("t", some 0), ("o", some 0), ("d1", some 5), ("d2", some 2)],
           Row.mk 1 [("t", some 1), ("o", some 0), ("d1", some 5), ("d2", some 1)]])
        (["d1"], Frame.mk ["t", "o", "d1", "d2"]
          [Row.mk 0 [("t", some 0), ("o", some 0), ("d1", some 5), ("d2", some 2)],
           Row.mk 1 [("t", some 1), ("o", some 0), ("d1", some 5), ("d2", some 1)]])).2.rows.map
      (fun r => r.val "discrete_distance") = [some 0, none] ∧
    lookupDist [DistRow.mk "d2" (some 1) (some 2) (1 / 2)] (some 1) (some 2) = 1 / 2 ∧
    (1 / 2 : ℚ) ≠ 0 := by
  refine ⟨by decide, by decide, by decide⟩

/-- Claim C8 (amended): in a scored stratum, each control unit's
discrete distance is the sum, over the discrete covariates outside the
defining subset, of the pairwise-table distance between the covariate
value of the stratum frame's FIRST ROW — not necessarily a treated
unit's category — and that control's value, defaulting to 0 when the
pair is absent; NaN when the discrete covariate list is empty. -/
theorem C8_amended_first_row_category (treatment outcome : String)
    (continuous_cols : List String) (disc_distance : List DistRow)
    (matched_list : List String) (data : Frame) (cov : List String) (mdf : Frame)
    (hgate : scoreGate matched_list
      (mergedColumns mdf.cols cov continuous_cols) = true)
    (hin : ∀ r ∈ mdf.rows, (dataRowFor data r.idx).isSome = true)
    (hnd : (idxsOf mdf.rows).Nodup) :
    ∀ r ∈ mdf.rows,
      qeq (mval data mdf.cols cov continuous_cols r treatment) (some 0) = true →
      frameVal (scoreStratum treatment outcome continuous_cols disc_distance
          matched_list data (cov, mdf)).2 r.idx "discrete_distance" =
        (if (discreteListOf (mergedColumns mdf.cols cov continuous_cols)
            treatment outcome).isEmpty then none
         else some (((discreteListOf (mergedColumns mdf.cols cov continuous_cols)
            treatment outcome).map (fun i => lookupDist disc_distance
              (firstRowVal data mdf.cols cov continuous_cols mdf.rows i)
              (mval data mdf.cols cov continuous_cols r i))).sum)) := by
  intro r hr hc
  have hmr : mergedRowsOf data mdf = mdf.rows := by
    unfold mergedRowsOf
    exact List.filter_eq_self.mpr hin
  have hndC : (idxsOf (mdf.rows.filter (fun x =>
      qeq (mval data mdf.cols cov continuous_cols x treatment) (some 0)))).Nodup := by
    simp only [idxsOf] at hnd ⊢
    exact List.Nodup.sublist ((List.filter_sublist _).map Row.idx) hnd
  have hrC : r ∈ mdf.rows.filter (fun x =>
      qeq (mval data mdf.cols cov continuous_cols x treatment) (some 0)) :=
    List.mem_filter.mpr ⟨hr, hc⟩
  unfold scoreStratum
  dsimp only
  rw [if_pos hgate]
  unfold frameVal
  dsimp only
  rw [hmr]
  rw [find?_idx_map_upd hnd]
  · dsimp only
    rw [Row.val_setCell_other _ _ (by decide), Row.val_setCell_other _ _ (by decide),
      Row.val_setCell_other _ _ (by decide), Row.val_setCell_same]
    rw [find?_idx_of_nodup hnd hr, Option.some_bind]
    unfold discValOfD controlRowsOf
    dsimp only
    rw [discTotals_eq, zip_self_map, List.find?_map]
    have hcomp : ((fun (p : Row × ℚ) => decide (p.1.idx = r.idx)) ∘
        (fun a => (a, ((discreteListOf (mergedColumns mdf.cols cov continuous_cols)
          treatment outcome).map (fun i => lookupDist disc_distance
            (firstRowVal data mdf.cols cov continuous_cols mdf.rows i)
            (mval data mdf.cols cov continuous_cols a i))).sum))) =
        (fun (x : Row) => decide (x.idx = r.idx)) := rfl
    rw [hcomp, find?_idx_of_nodup hndC hrC]
    rfl
  · exact fun x => rfl
  · exact hr

unseal Rat.mul Rat.inv Rat.add Rat.sub in
/-- Claim C8 witness: the counterexample stratum satisfies the amended
theorem's hypotheses (scored, all labels in `data`, unique labels), and
the per-control first-row-category characterisation applies. -/
theorem C8_witness :
    scoreGate ["d1", "d2"]
      (mergedColumns ["t", "o", "d1", "d2"] ["d1"] []) = true ∧
    (∀ r ∈ (Frame.mk ["t", "o", "d1", "d2"]
      [Row.mk 0 [("t", some 0), ("o", some 0), ("d1", some 5), ("d2", some 2)],
       Row.mk 1 [("t", some 1), ("o", some 0), ("d1", some 5), ("d2", some 1)]]).rows,
      (dataRowFor (Frame.mk ["t", "o", "d1", "d2"]
        [Row.mk 0 [("t", some 0), ("o", some 0), ("d1", some 5), ("d2", some 2)],
         Row.mk 1 [("t", some 1), ("o", some 0), ("d1", some 5), ("d2", some 1)]])
        r.idx).isSome = true) ∧
    (idxsOf (Frame.mk ["t", "o", "d1", "d2"]
      [Row.mk 0 [("t", some 0), ("o", some 0), ("d1", some 5), ("d2", some 2)],
       Row.mk 1 [("t", some 1), ("o", some 0), ("d1", some 5), ("d2", some 1)]]).rows).Nodup ∧
    (∀ r ∈ (Frame.mk ["t", "o", "d1", "d2"]
      [Row.mk 0 [("t", some 0), ("o", some 0), ("d1", some 5), ("d2", some 2)],
       Row.mk 1 [("t", some 1), ("o", some 0), ("d1", some 5), ("d2", some 1)]]).rows,
      qeq (mval (Frame.mk ["t", "o", "d1", "d2"]
        [Row.mk 0 [("t", some 0), ("o", some 0), ("d1", some 5), ("d2", some 2)],
         Row.mk 1 [("t", some 1), ("o", some 0), ("d1", some 5), ("d2", some 1)]])
        ["t", "o", "d1", "d2"] ["d1"] [] r "t") (some 0) = true →
      frameVal (scoreStratum "t" "o" []
          [DistRow.mk "d2" (some 1) (some 2) (1 / 2)] ["d1", "d2"]
          (Frame.mk ["t", "o", "d1", "d2"]
            [Row.mk 0 [("t", some 0), ("o", some 0), ("d1", some 5), ("d2", some 2)],
             Row.mk 1 [("t", some 1), ("o", some 0), ("d1", some 5), ("d2", some 1)]])
          (["d1"], Frame.mk ["t", "o", "d1", "d2"]
            [Row.mk 0 [("t", some 0), ("o", some 0), ("d1", some 5), ("d2", some 2)],
             Row.mk 1 [("t", some 1), ("o", some 0), ("d1", some 5), ("d2", some 1)]])).2
        r.idx "discrete_distance" =
        (if (discreteListOf (mergedColumns ["t", "o", "d1", "d2"] ["d1"] [])
            "t" "o").isEmpty then none
         else some (((discreteListOf (mergedColumns ["t", "o", "d1", "d2"] ["d1"] [])
            "t" "o").map (fun i => lookupDist
              [DistRow.mk "d2" (some 1) (some 2) (1 / 2)]
              (firstRowVal (Frame.mk ["t", "o", "d1", "d2"]
                [Row.mk 0 [("t", some 0), ("o", some 0), ("d1", some 5), ("d2", some 2)],
                 Row.mk 1 [("t", some 1), ("o", some 0), ("d1", some 5), ("d2", some 1)]])
                ["t", "o", "d1", "d2"] ["d1"] []
                [Row.mk 0 [("t", some 0), ("o", some 0), ("d1", some 5), ("d2", some 2)],
                 Row.mk 1 [("t", some 1), ("o", some 0), ("d1", some 5), ("d2", some 1)]] i)
              (mval (Frame.mk ["t", "o", "d1", "d2"]
                [Row.mk 0 [("t", some 0), ("o", some 0), ("d1", some 5), ("d2", some 2)],
                 Row.mk 1 [("t", some 1), ("o", some 0), ("d1", some 5), ("d2", some 1)]])
                ["t", "o", "d1", "d2"] ["d1"] [] r i))).sum))) :=
  ⟨by decide, by decide, by decide,
    C8_amended_first_row_category "t" "o" []
      [DistRow.mk "d2" (some 1) (some 2) (1 / 2)] ["d1", "d2"]
      (Frame.mk ["t", "o", "d1", "d2"]
        [Row.mk 0 [("t", some 0), ("o", some 0), ("d1", some 5), ("d2", some 2)],
         Row.mk 1 [("t", some 1), ("o", some 0), ("d1", some 5), ("d2", some 1)]])
      ["d1"]
      (Frame.mk ["t", "o", "d1", "d2"]
        [Row.mk 0 [("t", some 0), ("o", some 0), ("d1", some 5), ("d2", some 2)],
         Row.mk 1 [("t", some 1), ("o", some 0), ("d1", some 5), ("d2", some 1)]])
      (by decide) (by decide) (by decide)⟩

/-! ## C9 helpers -/

theorem qeq_some_ne {v : Option ℚ} {a b : ℚ} (h : qeq v (some a) = true)
    (hab : a ≠ b) : qeq v (some b) = false := by
  cases v with
  | none => rfl
  | some x =>
    have hx : x = a := of_decide_eq_true h
    subst hx
    exact decide_eq_false hab

theorem filterMap_ext_mem {α β : Type} {f g : α → Option β} :
    ∀ (l : List α), (∀ a ∈ l, f a = g a) →
      l.filterMap f = l.filterMap g := by
  intro l
  induction l with
  | nil => intro _; rfl
  | cons x xs ih =>
    intro h
    rw [List.filterMap_cons, List.filterMap_cons,
      h x (List.mem_cons_self x xs),
      ih (fun a ha => h a (List.mem_cons_of_mem x ha))]

/-- For a scored stratum whose index labels are unique and all present
in `data`, the output frame's `grand_total` and `inverse_distance`
cells at each input row's label are the per-row values `gtValOfD` and
`invValOfD`. -/
theorem scoreStratum_cells (treatment outcome : String)
    (continuous_cols : List String) (disc_distance : List DistRow)
    (matched_list : List String) (data : Frame) (cov : List String)
    (mdf : Frame)
    (hgate : scoreGate matched_list
      (mergedColumns mdf.cols cov continuous_cols) = true)
    (hin : ∀ r ∈ mdf.rows, (dataRowFor data r.idx).isSome = true)
    (hnd : (idxsOf mdf.rows).Nodup) :
    ∀ r ∈ mdf.rows,
      frameVal (scoreStratum treatment outcome continuous_cols disc_distance
          matched_list data (cov, mdf)).2 r.idx "grand_total" =
        gtValOfD treatment outcome disc_distance data mdf.cols cov
          continuous_cols mdf.rows r ∧
      frameVal (scoreStratum treatment outcome continuous_cols disc_distance
          matched_list data (cov, mdf)).2 r.idx "inverse_distance" =
        invValOfD treatment outcome disc_distance matched_list data mdf.cols
          cov continuous_cols mdf.rows r := by
  intro r hr
  have hmr : mergedRowsOf data mdf = mdf.rows := by
    unfold mergedRowsOf
    exact List.filter_eq_self.mpr hin
  constructor
  · unfold scoreStratum
    dsimp only
    rw [if_pos hgate]
    unfold frameVal
    dsimp only
    rw [hmr]
    rw [find?_idx_map_upd hnd]
    · dsimp only
      rw [Row.val_setCell_other _ _ (by decide), Row.val_setCell_same]
      rw [find?_idx_of_nodup hnd hr, Option.some_bind]
    · exact fun x => rfl
    · exact hr
  · unfold scoreStratum
    dsimp only
    rw [if_pos hgate]
    unfold frameVal
    dsimp only
    rw [hmr]
    rw [find?_idx_map_upd hnd]
    · dsimp only
      rw [Row.val_setCell_same]
      rw [find?_idx_of_nodup hnd hr, Option.some_bind]
    · exact fun x => rfl
    · exact hr

/-- Claim C9: in a scored stratum, each control unit's inverse distance
is the inverse min-max normalisation `1 - (grand_total - min) / (max -
min)` of its grand total, with min and max taken over the stratum's
control grand totals; when min = max every control's inverse distance
is 1; and every control inverse-distance value lies in `[0, 1]`. -/
theorem C9_control_inverse_minmax (treatment outcome : String)
    (continuous_cols : List String) (disc_distance : List DistRow)
    (matched_list : List String) (data : Frame) (cov : List String)
    (mdf : Frame) (out : Frame) (gts : List ℚ)
    (hout : out = (scoreStratum treatment outcome continuous_cols
      disc_distance matched_list data (cov, mdf)).2)
    (hgts : gts = (mdf.rows.filter (fun x =>
        qeq (mval data mdf.cols cov continuous_cols x treatment)
          (some 0))).filterMap (fun x => frameVal out x.idx "grand_total"))
    (hgate : scoreGate matched_list
      (mergedColumns mdf.cols cov continuous_cols) = true)
    (hin : ∀ r ∈ mdf.rows, (dataRowFor data r.idx).isSome = true)
    (hnd : (idxsOf mdf.rows).Nodup) :
    ∀ r ∈ mdf.rows,
      qeq (mval data mdf.cols cov continuous_cols r treatment) (some 0) = true →
      ∃ g, frameVal out r.idx "grand_total" = some g ∧
        (∀ mn mx, omin gts = some mn → omax gts = some mx →
          (mn < mx → frameVal out r.idx "inverse_distance" =
            some (1 - (g - mn) / (mx - mn))) ∧
          (mn = mx → frameVal out r.idx "inverse_distance" = some 1)) ∧
        (∀ q, frameVal out r.idx "inverse_distance" = some q →
          0 ≤ q ∧ q ≤ 1) := by
  subst hout
  intro r hr hc
  have hcells := scoreStratum_cells treatment outcome continuous_cols
    disc_distance matched_list data cov mdf hgate hin hnd
  obtain ⟨hg, hi⟩ := hcells r hr
  have hc1 : qeq (mval data mdf.cols cov continuous_cols r treatment)
      (some 1) = false := qeq_some_ne hc (by norm_num)
  obtain ⟨g, hgt⟩ : ∃ g, gtValOfD treatment outcome disc_distance data
      mdf.cols cov continuous_cols mdf.rows r = some g := by
    unfold gtValOfD
    rw [hc1]
    exact ⟨_, rfl⟩
  have hgts2 : gts = ctrlGtsOf treatment outcome disc_distance data
      mdf.cols cov continuous_cols mdf.rows := by
    rw [hgts]
    unfold ctrlGtsOf controlRowsOf
    exact filterMap_ext_mem _
      (fun x hx => (hcells x (List.mem_filter.mp hx).1).1)
  have hgmem : g ∈ ctrlGtsOf treatment outcome disc_distance data
      mdf.cols cov continuous_cols mdf.rows := by
    rw [← hgts2, hgts]
    refine List.mem_filterMap.mpr ⟨r, List.mem_filter.mpr ⟨hr, hc⟩, ?_⟩
    rw [hg, hgt]
  obtain ⟨mn, hmn⟩ : ∃ mn, omin (ctrlGtsOf treatment outcome disc_distance
      data mdf.cols cov continuous_cols mdf.rows) = some mn := by
    cases hl : ctrlGtsOf treatment outcome disc_distance data mdf.cols cov
        continuous_cols mdf.rows with
    | nil => rw [hl] at hgmem; simp at hgmem
    | cons x xs => exact ⟨xs.foldl min x, rfl⟩
  obtain ⟨mx, hmx⟩ : ∃ mx, omax (ctrlGtsOf treatment outcome disc_distance
      data mdf.cols cov continuous_cols mdf.rows) = some mx := by
    cases hl : ctrlGtsOf treatment outcome disc_distance data mdf.cols cov
        continuous_cols mdf.rows with
    | nil => rw [hl] at hgmem; simp at hgmem
    | cons x xs => exact ⟨xs.foldl max x, rfl⟩
  have hmnle : mn ≤ g := omin_le_of_mem hmn hgmem
  have hgle : g ≤ mx := le_omax_of_mem hmx hgmem
  have hinv : invValOfD treatment outcome disc_distance matched_list data
      mdf.cols cov continuous_cols mdf.rows r =
      if mn < mx then some (1 - (g - mn) / (mx - mn)) else some 1 := by
    unfold invValOfD
    dsimp only
    rw [hc1, if_neg Bool.false_ne_true]
    rw [hmn, hmx]
    dsimp only
    rw [hgt]
    by_cases hlt : mn < mx
    · simp only [if_pos hlt, Option.map_some', Option.isNone_some,
        Bool.and_false]
      rw [if_neg Bool.false_ne_true]
    · simp only [if_neg hlt, Option.isNone_some, Bool.and_false]
      rw [if_neg Bool.false_ne_true]
  refine ⟨g, hg.trans hgt, ?_, ?_⟩
  · intro mn' mx' hmn' hmx'
    rw [hgts2] at hmn' hmx'
    rw [hmn] at hmn'
    rw [hmx] at hmx'
    injection hmn' with hmn'
    injection hmx' with hmx'
    subst hmn'
    subst hmx'
    constructor
    · intro hlt
      rw [hi, hinv, if_pos hlt]
    · intro heq
      rw [hi, hinv, if_neg (by rw [heq]; exact lt_irrefl mx)]
  · intro q hq
    rw [hi, hinv] at hq
    by_cases hlt : mn < mx
    · rw [if_pos hlt] at hq
      injection hq with hq
      subst hq
      have hpos : (0 : ℚ) < mx - mn := sub_pos.mpr hlt
      constructor
      · have h1 : (g - mn) / (mx - mn) ≤ 1 :=
          (div_le_one hpos).mpr (sub_le_sub_right hgle mn)
        linarith
      · have h2 : (0 : ℚ) ≤ (g - mn) / (mx - mn) :=
          div_nonneg (sub_nonneg.mpr hmnle) (le_of_lt hpos)
        linarith
    · rw [if_neg hlt] at hq
      injection hq with hq
      subst hq
      exact ⟨by norm_num, le_refl 1⟩

unseal Rat.mul Rat.inv Rat.add Rat.sub in
/-- Claim C9 witness: the concrete scored stratum of the C8 development
satisfies the gate, presence and uniqueness hypotheses, and the
inverse-min-max characterisation applies to its control unit. -/
theorem C9_witness :
    scoreGate ["d1", "d2"]
      (mergedColumns ["t", "o", "d1", "d2"] ["d1"] []) = true ∧
    (∀ r ∈ (Frame.mk ["t", "o", "d1", "d2"]
      [Row.mk 0 [("t", some 0), ("o", some 0), ("d1", some 5), ("d2", some 2)],
       Row.mk 1 [("t", some 1), ("o", some 0), ("d1", some 5), ("d2", some 1)]]).rows,
      (dataRowFor (Frame.mk ["t", "o", "d1", "d2"]
        [Row.mk 0 [("t", some 0), ("o", some 0), ("d1", some 5), ("d2", some 2)],
         Row.mk 1 [("t", some 1), ("o", some 0), ("d1", some 5), ("d2", some 1)]])
        r.idx).isSome = true) ∧
    (idxsOf (Frame.mk ["t", "o", "d1", "d2"]
      [Row.mk 0 [("t", some 0), ("o", some 0), ("d1", some 5), ("d2", some 2)],
       Row.mk 1 [("t", some 1), ("o", some 0), ("d1", some 5), ("d2", some 1)]]).rows).Nodup ∧
    (∀ r ∈ (Frame.mk ["t", "o", "d1", "d2"]
      [Row.mk 0 [("t", some 0), ("o", some 0), ("d1", some 5), ("d2", some 2)],
       Row.mk 1 [("t", some 1), ("o", some 0), ("d1", some 5), ("d2", some 1)]]).rows,
      qeq (mval (Frame.mk ["t", "o", "d1", "d2"]
        [Row.mk 0 [("t", some 0), ("o", some 0), ("d1", some 5), ("d2", some 2)],
         Row.mk 1 [("t", some 1), ("o", some 0), ("d1", some 5), ("d2", some 1)]])
        ["t", "o", "d1", "d2"] ["d1"] [] r "t") (some 0) = true →
      ∃ g, frameVal (scoreStratum "t" "o" []
          [DistRow.mk "d2" (some 1) (some 2) (1 / 2)] ["d1", "d2"]
          (Frame.mk ["t", "o", "d1", "d2"]
            [Row.mk 0 [("t", some 0), ("o", some 0), ("d1", some 5), ("d2", some 2)],
             Row.mk 1 [("t", some 1), ("o", some 0), ("d1", some 5), ("d2", some 1)]])
          (["d1"], Frame.mk ["t", "o", "d1", "d2"]
            [Row.mk 0 [("t", some 0), ("o", some 0), ("d1", some 5), ("d2", some 2)],
             Row.mk 1 [("t", some 1), ("o", some 0), ("d1", some 5), ("d2", some 1)]])).2
          r.idx "grand_total" = some g ∧
        (∀ mn mx,
          omin (((Frame.mk ["t", "o", "d1", "d2"]
            [Row.mk 0 [("t", some 0), ("o", some 0), ("d1", some 5), ("d2", some 2)],
             Row.mk 1 [("t", some 1), ("o", some 0), ("d1", some 5), ("d2", some 1)]]).rows.filter
              (fun x => qeq (mval (Frame.mk ["t", "o", "d1", "d2"]
                [Row.mk 0 [("t", some 0), ("o", some 0), ("d1", some 5), ("d2", some 2)],
                 Row.mk 1 [("t", some 1), ("o", some 0), ("d1", some 5), ("d2", some 1)]])
                ["t", "o", "d1", "d2"] ["d1"] [] x "t") (some 0))).filterMap
              (fun x => frameVal (scoreStratum "t" "o" []
                [DistRow.mk "d2" (some 1) (some 2) (1 / 2)] ["d1", "d2"]
                (Frame.mk ["t", "o", "d1", "d2"]
                  [Row.mk 0 [("t", some 0), ("o", some 0), ("d1", some 5), ("d2", some 2)],
                   Row.mk 1 [("t", some 1), ("o", some 0), ("d1", some 5), ("d2", some 1)]])
                (["d1"], Frame.mk ["t", "o", "d1", "d2"]
                  [Row.mk 0 [("t", some 0), ("o", some 0), ("d1", some 5), ("d2", some 2)],
                   Row.mk 1 [("t", some 1), ("o", some 0), ("d1", some 5), ("d2", some 1)]])).2
                x.idx "grand_total")) = some mn →
          omax (((Frame.mk ["t", "o", "d1", "d2"]
            [Row.mk 0 [("t", some 0), ("o", some 0), ("d1", some 5), ("d2", some 2)],
             Row.mk 1 [("t", some 1), ("o", some 0), ("d1", some 5), ("d2", some 1)]]).rows.filter
              (fun x => qeq (mval (Frame.mk ["t", "o", "d1", "d2"]
                [Row.mk 0 [("t", some 0), ("o", some 0), ("d1", some 5), ("d2", some 2)],
                 Row.mk 1 [("t", some 1), ("o", some 0), ("d1", some 5), ("d2", some 1)]])
                ["t", "o", "d1", "d2"] ["d1"] [] x "t") (some 0))).filterMap
              (fun x => frameVal (scoreStratum "t" "o" []
                [DistRow.mk "d2" (some 1) (some 2) (1 / 2)] ["d1", "d2"]
                (Frame.mk ["t", "o", "d1", "d2"]
                  [Row.mk 0 [("t", some 0), ("o", some 0), ("d1", some 5), ("d2", some 2)],
                   Row.mk 1 [("t", some 1), ("o", some 0), ("d1", some 5), ("d2", some 1)]])
                (["d1"], Frame.mk ["t", "o", "d1", "d2"]
                  [Row.mk 0 [("t", some 0), ("o", some 0), ("d1", some 5), ("d2", some 2)],
                   Row.mk 1 [("t", some 1), ("o", some 0), ("d1", some 5), ("d2", some 1)]])).2
                x.idx "grand_total")) = some mx →
          (mn < mx → frameVal (scoreStratum "t" "o" []
              [DistRow.mk "d2" (some 1) (some 2) (1 / 2)] ["d1", "d2"]
              (Frame.mk ["t", "o", "d1", "d2"]
                [Row.mk 0 [("t", some 0), ("o", some 0), ("d1", some 5), ("d2", some 2)],
                 Row.mk 1 [("t", some 1), ("o", some 0), ("d1", some 5), ("d2", some 1)]])
              (["d1"], Frame.mk ["t", "o", "d1", "d2"]
                [Row.mk 0 [("t", some 0), ("o", some 0), ("d1", some 5), ("d2", some 2)],
                 Row.mk 1 [("t", some 1), ("o", some 0), ("d1", some 5), ("d2", some 1)]])).2
              r.idx "inverse_distance" = some (1 - (g - mn) / (mx - mn))) ∧
          (mn = mx → frameVal (scoreStratum "t" "o" []
              [DistRow.mk "d2" (some 1) (some 2) (1 / 2)] ["d1", "d2"]
              (Frame.mk ["t", "o", "d1", "d2"]
                [Row.mk 0 [("t", some 0), ("o", some 0), ("d1", some 5), ("d2", some 2)],
                 Row.mk 1 [("t", some 1), ("o", some 0), ("d1", some 5), ("d2", some 1)]])
              (["d1"], Frame.mk ["t", "o", "d1", "d2"]
                [Row.mk 0 [("t", some 0), ("o", some 0), ("d1", some 5), ("d2", some 2)],
                 Row.mk 1 [("t", some 1), ("o", some 0), ("d1", some 5), ("d2", some 1)]])).2
              r.idx "inverse_distance" = some 1)) ∧
        (∀ q, frameVal (scoreStratum "t" "o" []
            [DistRow.mk "d2" (some 1) (some 2) (1 / 2)] ["d1", "d2"]
            (Frame.mk ["t", "o", "d1", "d2"]
              [Row.mk 0 [("t", some 0), ("o", some 0), ("d1", some 5), ("d2", some 2)],
               Row.mk 1 [("t", some 1), ("o", some 0), ("d1", some 5), ("d2", some 1)]])
            (["d1"], Frame.mk ["t", "o", "d1", "d2"]
              [Row.mk 0 [("t", some 0), ("o", some 0), ("d1", some 5), ("d2", some 2)],
               Row.mk 1 [("t", some 1), ("o", some 0), ("d1", some 5), ("d2", some 1)]])).2
            r.idx "inverse_distance" = some q → 0 ≤ q ∧ q ≤ 1)) :=
  ⟨by decide, by decide, by decide,
    C9_control_inverse_minmax "t" "o" []
      [DistRow.mk "d2" (some 1) (some 2) (1 / 2)] ["d1", "d2"]
      (Frame.mk ["t", "o", "d1", "d2"]
        [Row.mk 0 [("t", some 0), ("o", some 0), ("d1", some 5), ("d2", some 2)],
         Row.mk 1 [("t", some 1), ("o", some 0), ("d1", some 5), ("d2", some 1)]])
      ["d1"]
      (Frame.mk ["t", "o", "d1", "d2"]
        [Row.mk 0 [("t", some 0), ("o", some 0), ("d1", some 5), ("d2", some 2)],
         Row.mk 1 [("t", some 1), ("o", some 0), ("d1", some 5), ("d2", some 1)]])
      (scoreStratum "t" "o" []
        [DistRow.mk "d2" (some 1) (some 2) (1 / 2)] ["d1", "d2"]
        (Frame.mk ["t", "o", "d1", "d2"]
          [Row.mk 0 [("t", some 0), ("o", some 0), ("d1", some 5), ("d2", some 2)],
           Row.mk 1 [("t", some 1), ("o", some 0), ("d1", some 5), ("d2", some 1)]])
        (["d1"], Frame.mk ["t", "o", "d1", "d2"]
          [Row.mk 0 [("t", some 0), ("o", some 0), ("d1", some 5), ("d2", some 2)],
           Row.mk 1 [("t", some 1), ("o", some 0), ("d1", some 5), ("d2", some 1)]])).2
      (((Frame.mk ["t", "o", "d1", "d2"]
        [Row.mk 0 [("t", some 0), ("o", some 0), ("d1", some 5), ("d2", some 2)],
         Row.mk 1 [("t", some 1), ("o", some 0), ("d1", some 5), ("d2", some 1)]]).rows.filter
          (fun x => qeq (mval (Frame.mk ["t", "o", "d1", "d2"]
            [Row.mk 0 [("t", some 0), ("o", some 0), ("d1", some 5), ("d2", some 2)],
             Row.mk 1 [("t", some 1), ("o", some 0), ("d1", some 5), ("d2", some 1)]])
            ["t", "o", "d1", "d2"] ["d1"] [] x "t") (some 0))).filterMap
          (fun x => frameVal (scoreStratum "t" "o" []
            [DistRow.mk "d2" (some 1) (some 2) (1 / 2)] ["d1", "d2"]
            (Frame.mk ["t", "o", "d1", "d2"]
              [Row.mk 0 [("t", some 0), ("o", some 0), ("d1", some 5), ("d2", some 2)],
               Row.mk 1 [("t", some 1), ("o", some 0), ("d1", some 5), ("d2", some 1)]])
            (["d1"], Frame.mk ["t", "o", "d1", "d2"]
              [Row.mk 0 [("t", some 0), ("o", some 0), ("d1", some 5), ("d2", some 2)],
               Row.mk 1 [("t", some 1), ("o", some 0), ("d1", some 5), ("d2", some 1)]])).2
            x.idx "grand_total"))
      rfl rfl (by decide) (by decide) (by decide)⟩
